import Mathlib

/-!
Verification of the `ultimate_debate` consensus engine.

The development shallowly embeds the pure parts of the Python sources:

* `comparison/semantic.py` — `SemanticComparator.compare` / `_cluster_texts`.
  The numeric TF-IDF + cosine step (delegated by the source to the external
  scikit-learn library) is abstracted as an explicit similarity oracle
  `sim : Nat → Nat → ℚ` standing for the pairwise cosine-similarity matrix
  that `cosine_similarity(self.vectorizer.fit_transform(texts))` returns;
  every theorem that can be proved for all `sim` is stated that way.
  Python floats are modelled as rationals.
* `consensus/protocol.py` — `ConsensusChecker.check_consensus`,
  `_normalize_conclusion`, `check_cross_review_consensus`.
* `engine.py` — preflight, phase-1/3/4 fan-out, the round loop.  The
  asynchronous fan-out is modelled by supplying each participant operation's
  outcome (`Except`-valued) as input; `asyncio.gather(..., return_exceptions=True)`
  becomes per-item handling, while plain `asyncio.gather(...)` becomes a
  strict gather that propagates the first exception.
* `storage/chunker.py` — `ChunkManager.write_chunked` / `load_level`,
  modelled on the file *content* (a `List Char` of Unicode code points,
  matching Python `str` semantics); the filesystem read/write around it is
  the identity on that content.
-/

set_option maxHeartbeats 1000000

namespace UDebate

/-! ### Semantic comparator (`comparison/semantic.py`) -/

/-- Result dictionary of `SemanticComparator.compare`. -/
structure CompareResult where
  similarity_matrix : List (List ℚ)
  max_similarity : ℚ
  is_similar : Bool
  clusters : List (List Nat)
deriving Repr, DecidableEq

/-- The greedy anchor pass of `SemanticComparator._cluster_texts`:
iterate `i` over the remaining index list; an unvisited `i` opens a new
cluster and captures every later unvisited `j` with `sim i j ≥ threshold`;
all captured indices are appended to `visited`.  The inner Python loop marks
each captured `j` visited as it goes, but since the candidates are pairwise
distinct this is equivalent to the single filter used here. -/
def clusterGo (sim : Nat → Nat → ℚ) (t : ℚ) : List Nat → List Nat → List (List Nat)
  | [], _ => []
  | i :: rest, visited =>
    if i ∈ visited then clusterGo sim t rest visited
    else
      let c := i :: rest.filter (fun j => decide (j ∉ visited) && decide (t ≤ sim i j))
      c :: clusterGo sim t rest (visited ++ c)

/-- `_cluster_texts` on `n` texts: the greedy pass over `range n` with an
initially empty visited set. -/
def cluster_texts (sim : Nat → Nat → ℚ) (t : ℚ) (n : Nat) : List (List Nat) :=
  clusterGo sim t (List.range n) []

/-- The `max_similarity` double loop of `compare`: maximum of the strictly
upper-triangular entries, starting from `0.0`, taking a new value only on
strict increase. -/
def maxOffDiag (sim : Nat → Nat → ℚ) (n : Nat) : ℚ :=
  (List.range n).foldl
    (fun acc i =>
      (List.range' (i + 1) (n - (i + 1))).foldl
        (fun a j => if a < sim i j then sim i j else a) acc)
    0

/-- `SemanticComparator.compare`.  For fewer than two texts it returns the
degenerate result; otherwise it assembles the full matrix, the maximal
off-diagonal similarity, the `is_similar` flag and the greedy clusters.
(The real implementation obtains the matrix from scikit-learn, which raises
`ValueError` when the input yields an empty vocabulary; that error path lies
in the external library and is outside this model — see the theorems on
claim C6.) -/
def compare (sim : Nat → Nat → ℚ) (t : ℚ) (texts : List String) : CompareResult :=
  if texts.length < 2 then
    { similarity_matrix := [], max_similarity := 0, is_similar := false, clusters := [] }
  else
    let n := texts.length
    let m := maxOffDiag sim n
    { similarity_matrix := (List.range n).map fun i => (List.range n).map fun j => sim i j
      max_similarity := m
      is_similar := decide (t ≤ m)
      clusters := cluster_texts sim t n }

/-! ### Consensus protocol (`consensus/protocol.py`) -/

/-- The `confidence` value of an analysis dictionary: a number, or some
non-numeric value (rejected by the validator's `isinstance` check). -/
inductive ConfVal where
  | num (q : ℚ)
  | nonNum
deriving Repr, DecidableEq

/-- The `analysis` value of an analysis dictionary: a string, or some
non-string value (rejected by the validator's `isinstance` check). -/
inductive TextVal where
  | str (s : String)
  | nonStr
deriving Repr, DecidableEq

/-- One participant's analysis dictionary.  `Option` models key absence
(`dict.get` with a default); `requires_input` models the truthiness test on
that key (absent ≘ `false`). -/
structure Analysis where
  model : Option String := none
  model_version : Option String := none
  analysis : Option TextVal := none
  conclusion : Option String := none
  confidence : Option ConfVal := none
  requires_input : Bool := false
deriving Repr, DecidableEq

/-- Python's argumentless `str.split`: split a code-point sequence on runs
of whitespace, dropping empty pieces.  `acc` is the current word, reversed. -/
def splitWsAux : List Char → List Char → List (List Char)
  | [], acc => if acc.isEmpty then [] else [acc.reverse]
  | c :: rest, acc =>
    if c.isWhitespace then
      if acc.isEmpty then splitWsAux rest [] else acc.reverse :: splitWsAux rest []
    else splitWsAux rest (c :: acc)

/-- `ConsensusChecker._normalize_conclusion`: lowercase, then
`" ".join(text.split())` — split on whitespace runs dropping empty pieces,
join with single spaces.  Modelled at the code-point level (Python `str`
semantics; `Char.toLower` / `Char.isWhitespace` cover the ASCII range
exercised by the repository). -/
def normalize_conclusion (conclusion : String) : String :=
  ⟨List.intercalate [' '] (splitWsAux (conclusion.data.map Char.toLower) [])⟩

/-- One entry of `agreed_items` / `disputed_items`: representative
conclusion, member model names, cluster size. -/
structure ClusterItem where
  conclusion : String
  models : List String
  count : Nat
deriving Repr, DecidableEq

/-- `ConsensusResult` of `consensus/protocol.py` (the `details` diagnostic
bag, unused by any claim, is omitted). -/
structure ConsensusResult where
  status : String
  agreed_items : List ClusterItem := []
  disputed_items : List ClusterItem := []
  consensus_percentage : ℚ := 0
  next_action : Option String := none
deriving Repr, DecidableEq

/-- The status / next-action decision chain at the end of `check_consensus`:
`percentage ≥ threshold` → FULL, else `percentage ≥ 0.5` → PARTIAL with
CROSS_REVIEW, else NO with DEBATE.  (`0.5` is written `mkRat 1 2`, which
equals `(1 : ℚ)/2`; `mkRat` is preferred throughout because `Rat.inv` — and
hence rational division — is `@[irreducible]` and would block kernel
evaluation of concrete instances.) -/
def decideStatus (threshold pct : ℚ) : String × Option String :=
  if threshold ≤ pct then ("FULL_CONSENSUS", none)
  else if mkRat 1 2 ≤ pct then ("PARTIAL_CONSENSUS", some "CROSS_REVIEW")
  else ("NO_CONSENSUS", some "DEBATE")

/-- Python's `max(clusters, key=len)`: the first element of maximal length
(`max` keeps the earlier element on ties).  `max` on an empty list raises in
Python; the `[]` default is unreachable from `check_consensus`. -/
def maxByLen : List (List Nat) → List Nat
  | [] => []
  | [c] => c
  | c :: c' :: cs =>
    let m := maxByLen (c' :: cs)
    if c.length < m.length then m else c

/-- The item built for a cluster inside `check_consensus`:
`conclusions[cluster[0]]`, the member models, and the size. -/
def mkClusterItem (conclusions models : List String) (c : List Nat) : ClusterItem :=
  { conclusion := conclusions.getD (c.headD 0) ""
    models := c.map fun i => models.getD i "unknown"
    count := c.length }

/-- `ConsensusChecker.check_consensus` with the similarity oracle made
explicit.  `threshold` is the checker's quorum threshold, `simThreshold` the
comparator's similarity threshold. -/
def check_consensus (threshold : ℚ) (sim : Nat → Nat → ℚ) (simThreshold : ℚ)
    (analyses : List Analysis) : ConsensusResult :=
  if analyses.length < 2 then
    { status := "NO_CONSENSUS", next_action := some "NEED_MORE_ANALYSES" }
  else
    let conclusions := analyses.map fun a => normalize_conclusion (a.conclusion.getD "")
    let models := analyses.map fun a => a.model.getD "unknown"
    if conclusions.all (fun c => c == "") then
      { status := "NO_CONSENSUS", next_action := some "NEED_MORE_ANALYSES" }
    else
      let comparison := compare sim simThreshold conclusions
      let clusters := comparison.clusters
      let largest := maxByLen clusters
      -- Python: len(largest_cluster) / len(analyses); exact rational division,
      -- written `mkRat` (= `(a : ℚ) / (b : ℚ)`) for kernel evaluability.
      let pct : ℚ := mkRat largest.length analyses.length
      let agreed := (clusters.filter (fun c => c == largest)).map (mkClusterItem conclusions models)
      let disputed :=
        (clusters.filter (fun c => !(c == largest))).map (mkClusterItem conclusions models)
      let sa := decideStatus threshold pct
      { status := sa.1, agreed_items := agreed, disputed_items := disputed,
        consensus_percentage := pct, next_action := sa.2 }

/-- A cross-review dictionary (`feedback`, `agreement_points`,
`disagreement_points`, optional `requires_input` placeholder flag). -/
structure Review where
  feedback : String := ""
  agreement_points : List String := []
  disagreement_points : List String := []
  requires_input : Bool := false
deriving Repr, DecidableEq

/-- `ConsensusChecker.check_cross_review_consensus`: counts agreement vs
disagreement points over all reviews; a zero total short-circuits the ratio
to `0.0`; the same threshold chain applies but a partial result's
`next_action` is DEBATE. -/
def check_cross_review_consensus (threshold : ℚ) (reviews : List Review) : ConsensusResult :=
  if reviews.isEmpty then
    { status := "NO_CONSENSUS", next_action := some "NEED_REVIEWS" }
  else
    let agree := (reviews.map fun r => r.agreement_points.length).sum
    let disagree := (reviews.map fun r => r.disagreement_points.length).sum
    let total := agree + disagree
    -- agreement_ratio: 0.0 when no points at all, else agree / total
    -- (exact rational division, written `mkRat` for kernel evaluability)
    let share : ℚ := if total = 0 then 0 else mkRat agree total
    if threshold ≤ share then
      { status := "FULL_CONSENSUS", consensus_percentage := share, next_action := none }
    else if mkRat 1 2 ≤ share then
      { status := "PARTIAL_CONSENSUS", consensus_percentage := share, next_action := some "DEBATE" }
    else
      { status := "NO_CONSENSUS", consensus_percentage := share, next_action := some "DEBATE" }

/-- The all-conclusions-empty guard of `check_consensus`
(`all(not c for c in conclusions)`). -/
def allConclusionsEmpty (analyses : List Analysis) : Bool :=
  (analyses.map fun a => normalize_conclusion (a.conclusion.getD "")).all (fun c => c == "")

/-! ### Structural lemmas about the greedy clustering -/

theorem clusterGo_mem_spec (sim : Nat → Nat → ℚ) (t : ℚ) :
    ∀ (l visited : List Nat), ∀ c ∈ clusterGo sim t l visited,
      c ≠ [] ∧ ∀ x ∈ c, x ∈ l ∧ x ∉ visited := by
  intro l
  induction l with
  | nil => intro visited c hc; simp [clusterGo] at hc
  | cons i rest ih =>
    intro visited c hc
    by_cases hiv : i ∈ visited
    · rw [clusterGo, if_pos hiv] at hc
      obtain ⟨hne, hmem⟩ := ih visited c hc
      exact ⟨hne, fun x hx => ⟨List.mem_cons_of_mem _ (hmem x hx).1, (hmem x hx).2⟩⟩
    · rw [clusterGo, if_neg hiv] at hc
      rcases List.mem_cons.mp hc with h | h
      · subst h
        refine ⟨by simp, ?_⟩
        intro x hx
        rcases List.mem_cons.mp hx with h | h
        · subst h; exact ⟨List.mem_cons_self _ _, hiv⟩
        · have hf := List.mem_filter.mp h
          refine ⟨List.mem_cons_of_mem _ hf.1, ?_⟩
          have := hf.2
          simp only [Bool.and_eq_true, decide_eq_true_eq] at this
          exact this.1
      · obtain ⟨hne, hmem⟩ := ih _ c h
        refine ⟨hne, fun x hx => ?_⟩
        obtain ⟨h1, h2⟩ := hmem x hx
        refine ⟨List.mem_cons_of_mem _ h1, fun hxv => h2 (List.mem_append_left _ hxv)⟩

theorem clusterGo_nodup (sim : Nat → Nat → ℚ) (t : ℚ) :
    ∀ (l visited : List Nat), (clusterGo sim t l visited).Nodup := by
  intro l
  induction l with
  | nil => intro visited; simp [clusterGo]
  | cons i rest ih =>
    intro visited
    by_cases hiv : i ∈ visited
    · rw [clusterGo, if_pos hiv]; exact ih visited
    · rw [clusterGo, if_neg hiv]
      refine List.nodup_cons.mpr ⟨?_, ih _⟩
      intro hmem
      obtain ⟨_, hspec⟩ := clusterGo_mem_spec sim t rest _ _ hmem
      have hhead := (hspec i (List.mem_cons_self _ _)).2
      exact hhead (List.mem_append_right _ (List.mem_cons_self _ _))

theorem clusterGo_ne_nil (sim : Nat → Nat → ℚ) (t : ℚ) :
    ∀ (l visited : List Nat), (∃ x ∈ l, x ∉ visited) → clusterGo sim t l visited ≠ [] := by
  intro l
  induction l with
  | nil => intro visited h; obtain ⟨x, hx, _⟩ := h; exact absurd hx (List.not_mem_nil x)
  | cons i rest ih =>
    intro visited h
    by_cases hiv : i ∈ visited
    · rw [clusterGo, if_pos hiv]
      obtain ⟨x, hx, hxv⟩ := h
      rcases List.mem_cons.mp hx with h | h
      · subst h; exact absurd hiv hxv
      · exact ih visited ⟨x, h, hxv⟩
    · rw [clusterGo, if_neg hiv]; simp

theorem clusterGo_pairwise_head (sim : Nat → Nat → ℚ) (t : ℚ) :
    ∀ (l visited : List Nat), l.Pairwise (· < ·) →
      (clusterGo sim t l visited).Pairwise (fun a b => a.headD 0 < b.headD 0) := by
  intro l
  induction l with
  | nil => intro visited _; simp [clusterGo]
  | cons i rest ih =>
    intro visited hp
    have hpr := List.pairwise_cons.mp hp
    by_cases hiv : i ∈ visited
    · rw [clusterGo, if_pos hiv]; exact ih visited hpr.2
    · rw [clusterGo, if_neg hiv]
      refine List.pairwise_cons.mpr ⟨?_, ih _ hpr.2⟩
      intro b hb
      obtain ⟨hbne, hbspec⟩ := clusterGo_mem_spec sim t rest _ _ hb
      obtain ⟨y, ys, rfl⟩ := List.exists_cons_of_ne_nil hbne
      have hy : y ∈ rest := (hbspec y (List.mem_cons_self _ _)).1
      simpa using hpr.1 y hy

theorem clusterGo_anchor (sim : Nat → Nat → ℚ) (t : ℚ) :
    ∀ (l visited : List Nat), l.Pairwise (· < ·) →
      ∀ c ∈ clusterGo sim t l visited,
        ∃ a fs, c = a :: fs ∧ ∀ j ∈ fs, a < j ∧ t ≤ sim a j := by
  intro l
  induction l with
  | nil => intro visited _ c hc; simp [clusterGo] at hc
  | cons i rest ih =>
    intro visited hp c hc
    have hpr := List.pairwise_cons.mp hp
    by_cases hiv : i ∈ visited
    · rw [clusterGo, if_pos hiv] at hc; exact ih visited hpr.2 c hc
    · rw [clusterGo, if_neg hiv] at hc
      rcases List.mem_cons.mp hc with h | h
      · refine ⟨i, _, h, ?_⟩
        intro j hj
        have hf := List.mem_filter.mp hj
        have hcond := hf.2
        simp only [Bool.and_eq_true, decide_eq_true_eq] at hcond
        exact ⟨hpr.1 j hf.1, hcond.2⟩
      · exact ih _ hpr.2 c h

/-! ### Lemmas about `maxByLen` (Python `max(clusters, key=len)`) -/

theorem maxByLen_mem : ∀ (l : List (List Nat)), l ≠ [] → maxByLen l ∈ l := by
  intro l
  induction l with
  | nil => intro h; exact absurd rfl h
  | cons c cs ih =>
    intro _
    cases cs with
    | nil => simp [maxByLen]
    | cons c' cs' =>
      rw [maxByLen]
      by_cases h : c.length < (maxByLen (c' :: cs')).length
      · rw [if_pos h]; exact List.mem_cons_of_mem _ (ih (by simp))
      · rw [if_neg h]; exact List.mem_cons_self _ _

theorem maxByLen_le : ∀ (l : List (List Nat)), ∀ x ∈ l, x.length ≤ (maxByLen l).length := by
  intro l
  induction l with
  | nil => intro x hx; exact absurd hx (List.not_mem_nil x)
  | cons c cs ih =>
    intro x hx
    cases cs with
    | nil =>
      rcases List.mem_cons.mp hx with h | h
      · subst h; simp [maxByLen]
      · exact absurd h (List.not_mem_nil x)
    | cons c' cs' =>
      rw [maxByLen]
      by_cases h : c.length < (maxByLen (c' :: cs')).length
      · rw [if_pos h]
        rcases List.mem_cons.mp hx with hx' | hx'
        · subst hx'; exact le_of_lt h
        · exact ih x hx'
      · rw [if_neg h]
        rcases List.mem_cons.mp hx with hx' | hx'
        · subst hx'; exact le_rfl
        · exact le_trans (ih x hx') (Nat.le_of_not_lt h)

theorem maxByLen_first_anchor :
    ∀ (l : List (List Nat)), l.Pairwise (fun a b => a.headD 0 < b.headD 0) →
      ∀ c ∈ l, c.length = (maxByLen l).length → (maxByLen l).headD 0 ≤ c.headD 0 := by
  intro l
  induction l with
  | nil => intro _ c hc; exact absurd hc (List.not_mem_nil c)
  | cons a cs ih =>
    intro hp c hc hlen
    have hpr := List.pairwise_cons.mp hp
    cases cs with
    | nil =>
      rcases List.mem_cons.mp hc with h | h
      · subst h; simp [maxByLen]
      · exact absurd h (List.not_mem_nil c)
    | cons c' cs' =>
      rw [maxByLen] at hlen ⊢
      by_cases h : a.length < (maxByLen (c' :: cs')).length
      · rw [if_pos h] at hlen ⊢
        rcases List.mem_cons.mp hc with hx | hx
        · subst hx; omega
        · exact ih hpr.2 c hx hlen
      · rw [if_neg h] at hlen ⊢
        rcases List.mem_cons.mp hc with hx | hx
        · subst hx; exact le_rfl
        · exact le_of_lt (hpr.1 c hx)

/-- `Nodup` membership filter: the value-equality scan `cluster == largest_cluster`
inside `check_consensus` selects exactly one cluster. -/
theorem filter_beq_of_nodup : ∀ (l : List (List Nat)), l.Nodup → ∀ a ∈ l,
    l.filter (fun c => c == a) = [a] := by
  intro l
  induction l with
  | nil => intro _ a ha; exact absurd ha (List.not_mem_nil a)
  | cons b bs ih =>
    intro hnd a ha
    have hnd' := List.nodup_cons.mp hnd
    rcases List.mem_cons.mp ha with h | h
    · subst h
      have hrest : bs.filter (fun c => c == a) = [] := by
        apply List.filter_eq_nil_iff.mpr
        intro x hx
        simp only [beq_iff_eq]
        intro hxa
        exact hnd'.1 (hxa ▸ hx)
      simp [List.filter_cons, hrest]
    · have hba : (b == a) = false := by
        simp only [beq_eq_false_iff_ne, ne_eq]
        intro hba
        exact hnd'.1 (hba ▸ h)
      simp only [List.filter_cons, hba, Bool.false_eq_true, if_false]
      exact ih hnd'.2 a h

/-! ### Unfolding lemmas for `compare` and `check_consensus` -/

theorem compare_of_lt (sim : Nat → Nat → ℚ) (t : ℚ) (texts : List String)
    (h : texts.length < 2) :
    compare sim t texts =
      { similarity_matrix := [], max_similarity := 0, is_similar := false, clusters := [] } := by
  rw [compare, if_pos h]

theorem compare_clusters (sim : Nat → Nat → ℚ) (t : ℚ) (texts : List String)
    (h : 2 ≤ texts.length) :
    (compare sim t texts).clusters = cluster_texts sim t texts.length := by
  rw [compare, if_neg (Nat.not_lt.mpr h)]

theorem compare_matrix_length (sim : Nat → Nat → ℚ) (t : ℚ) (texts : List String)
    (h : 2 ≤ texts.length) :
    (compare sim t texts).similarity_matrix.length = texts.length := by
  rw [compare, if_neg (Nat.not_lt.mpr h)]
  simp

/-- The clusters of `check_consensus` on a non-degenerate input. -/
def consensusClusters (sim : Nat → Nat → ℚ) (simThreshold : ℚ) (analyses : List Analysis) :
    List (List Nat) :=
  cluster_texts sim simThreshold analyses.length

/-- The normalized conclusion list built inside `check_consensus`. -/
def normConclusions (analyses : List Analysis) : List String :=
  analyses.map fun a => normalize_conclusion (a.conclusion.getD "")

/-- The model-name list built inside `check_consensus` (`a.get("model", "unknown")`). -/
def modelNames (analyses : List Analysis) : List String :=
  analyses.map fun a => a.model.getD "unknown"

/-- The `largest_cluster` chosen by `check_consensus`. -/
def largestCluster (sim : Nat → Nat → ℚ) (simThreshold : ℚ) (analyses : List Analysis) :
    List Nat :=
  maxByLen (consensusClusters sim simThreshold analyses)

/-- The `consensus_percentage` computed by `check_consensus`. -/
def consensusPct (sim : Nat → Nat → ℚ) (simThreshold : ℚ) (analyses : List Analysis) : ℚ :=
  mkRat (largestCluster sim simThreshold analyses).length analyses.length

theorem mkRat_one_half : (mkRat 1 2 : ℚ) = (1 : ℚ) / 2 := by
  rw [Rat.mkRat_eq_div]
  norm_num

theorem check_consensus_main (threshold : ℚ) (sim : Nat → Nat → ℚ) (simThreshold : ℚ)
    (analyses : List Analysis) (h2 : 2 ≤ analyses.length)
    (hne : allConclusionsEmpty analyses = false) :
    check_consensus threshold sim simThreshold analyses =
      { status := (decideStatus threshold (consensusPct sim simThreshold analyses)).1
        agreed_items := ((consensusClusters sim simThreshold analyses).filter
            (fun c => c == largestCluster sim simThreshold analyses)).map
          (mkClusterItem (normConclusions analyses) (modelNames analyses))
        disputed_items := ((consensusClusters sim simThreshold analyses).filter
            (fun c => !(c == largestCluster sim simThreshold analyses))).map
          (mkClusterItem (normConclusions analyses) (modelNames analyses))
        consensus_percentage := consensusPct sim simThreshold analyses
        next_action := (decideStatus threshold (consensusPct sim simThreshold analyses)).2 } := by
  rw [check_consensus, if_neg (Nat.not_lt.mpr h2)]
  rw [allConclusionsEmpty] at hne
  simp only [hne, Bool.false_eq_true, if_false]
  have hcl : (compare sim simThreshold
      (analyses.map fun a => normalize_conclusion (a.conclusion.getD ""))).clusters =
      consensusClusters sim simThreshold analyses := by
    rw [compare_clusters _ _ _ (by simpa using h2), consensusClusters, List.length_map]
  rw [hcl]
  rfl

theorem decideStatus_spec (threshold pct : ℚ) (hth : (1 : ℚ) / 2 ≤ threshold) :
    (((decideStatus threshold pct).1 = "FULL_CONSENSUS" ∧
        (decideStatus threshold pct).2 = none) ↔ threshold ≤ pct) ∧
    (((decideStatus threshold pct).1 = "PARTIAL_CONSENSUS" ∧
        (decideStatus threshold pct).2 = some "CROSS_REVIEW") ↔
      ((1 : ℚ) / 2 ≤ pct ∧ pct < threshold)) ∧
    (((decideStatus threshold pct).1 = "NO_CONSENSUS" ∧
        (decideStatus threshold pct).2 = some "DEBATE") ↔ pct < (1 : ℚ) / 2) := by
  unfold decideStatus
  rw [mkRat_one_half]
  by_cases h1 : threshold ≤ pct
  · rw [if_pos h1]
    have hh : ¬ pct < (1 : ℚ) / 2 := not_lt.mpr (le_trans hth h1)
    have hh2 : (2⁻¹ : ℚ) ≤ pct := by rw [← one_div]; exact le_trans hth h1
    refine ⟨?_, ?_, ?_⟩ <;> simp [h1, hh, hh2, not_lt.mpr h1]
  · rw [if_neg h1]
    by_cases hmid : (1 : ℚ) / 2 ≤ pct
    · rw [if_pos hmid]
      have hmid2 : (2⁻¹ : ℚ) ≤ pct := by rw [← one_div]; exact hmid
      refine ⟨?_, ?_, ?_⟩ <;>
        simp [h1, hmid, hmid2, lt_of_not_le h1, not_lt.mpr hmid]
    · rw [if_neg hmid]
      have hmid2 : pct < (2⁻¹ : ℚ) := by rw [← one_div]; exact lt_of_not_le hmid
      refine ⟨?_, ?_, ?_⟩ <;> simp [h1, hmid, hmid2, lt_of_not_le hmid]

theorem consensusClusters_ne_nil (sim : Nat → Nat → ℚ) (simT : ℚ) (analyses : List Analysis)
    (h2 : 2 ≤ analyses.length) : consensusClusters sim simT analyses ≠ [] := by
  rw [consensusClusters, cluster_texts]
  apply clusterGo_ne_nil
  exact ⟨0, List.mem_range.mpr (by omega), by simp⟩

/-! ### Claim C1 -/

/-- **C1.** For at least two analyses whose normalized conclusions are not all
empty, and a quorum threshold in the configured domain (`threshold ≥ 1/2`,
cf. the Debate State invariant `consensus_threshold ∈ [0.5, 1.0]`),
`check_consensus` yields FULL_CONSENSUS with no next action iff the
percentage reaches the threshold, PARTIAL_CONSENSUS with CROSS_REVIEW iff it
lies in `[1/2, threshold)`, and NO_CONSENSUS with DEBATE iff it is below
`1/2`; with three analyses of which exactly two fall in the largest cluster,
the percentage is exactly `2/3`, the status is FULL_CONSENSUS iff
`threshold ≤ 2/3`, and otherwise PARTIAL_CONSENSUS with CROSS_REVIEW. -/
theorem C1_check_consensus_decision_table
    (threshold simT : ℚ) (sim : Nat → Nat → ℚ) (analyses : List Analysis)
    (hth : (1 : ℚ) / 2 ≤ threshold) (h2 : 2 ≤ analyses.length)
    (hne : allConclusionsEmpty analyses = false) :
    (((check_consensus threshold sim simT analyses).status = "FULL_CONSENSUS" ∧
        (check_consensus threshold sim simT analyses).next_action = none) ↔
      threshold ≤ (check_consensus threshold sim simT analyses).consensus_percentage) ∧
    (((check_consensus threshold sim simT analyses).status = "PARTIAL_CONSENSUS" ∧
        (check_consensus threshold sim simT analyses).next_action = some "CROSS_REVIEW") ↔
      ((1 : ℚ) / 2 ≤ (check_consensus threshold sim simT analyses).consensus_percentage ∧
        (check_consensus threshold sim simT analyses).consensus_percentage < threshold)) ∧
    (((check_consensus threshold sim simT analyses).status = "NO_CONSENSUS" ∧
        (check_consensus threshold sim simT analyses).next_action = some "DEBATE") ↔
      (check_consensus threshold sim simT analyses).consensus_percentage < (1 : ℚ) / 2) ∧
    (analyses.length = 3 → (largestCluster sim simT analyses).length = 2 →
      (check_consensus threshold sim simT analyses).consensus_percentage = 2 / 3 ∧
      ((check_consensus threshold sim simT analyses).status = "FULL_CONSENSUS" ↔
        threshold ≤ 2 / 3) ∧
      (¬ threshold ≤ 2 / 3 →
        (check_consensus threshold sim simT analyses).status = "PARTIAL_CONSENSUS" ∧
        (check_consensus threshold sim simT analyses).next_action = some "CROSS_REVIEW")) := by
  rw [check_consensus_main threshold sim simT analyses h2 hne]
  obtain ⟨hF, hP, hN⟩ := decideStatus_spec threshold (consensusPct sim simT analyses) hth
  refine ⟨hF, hP, hN, ?_⟩
  intro h3 hmax
  have hpct : consensusPct sim simT analyses = 2 / 3 := by
    rw [consensusPct, hmax, h3, Rat.mkRat_eq_div]
    norm_num
  have h12 : (1 : ℚ) / 2 ≤ 2 / 3 := by norm_num
  refine ⟨hpct, ?_, ?_⟩
  · show (decideStatus threshold (consensusPct sim simT analyses)).1 = "FULL_CONSENSUS" ↔ _
    rw [hpct, decideStatus, mkRat_one_half]
    by_cases hle : threshold ≤ 2 / 3
    · rw [if_pos hle]
      simp [hle]
    · rw [if_neg hle, if_pos h12]
      simp [hle]
  · intro hgt
    constructor
    · show (decideStatus threshold (consensusPct sim simT analyses)).1 = _
      rw [hpct, decideStatus, mkRat_one_half, if_neg hgt, if_pos h12]
    · show (decideStatus threshold (consensusPct sim simT analyses)).2 = _
      rw [hpct, decideStatus, mkRat_one_half, if_neg hgt, if_pos h12]

/-- Similarity oracle for the witnesses: conclusions 0 and 1 are fully
similar, everything else dissimilar. -/
def simW : Nat → Nat → ℚ := fun i j =>
  if (i = 0 ∧ j = 1) ∨ (i = 1 ∧ j = 0) then 1 else 0

/-- Three analyses, two with an equal conclusion modulo normalization. -/
def wAnalyses : List Analysis :=
  [{ conclusion := some "Use Redis", model := some "claude" },
   { conclusion := some "use redis", model := some "gpt" },
   { conclusion := some "Envoy", model := some "gemini" }]

theorem C1_check_consensus_decision_table_witness :
    (check_consensus (mkRat 8 10) simW (mkRat 3 10) wAnalyses).status = "PARTIAL_CONSENSUS" ∧
    (check_consensus (mkRat 8 10) simW (mkRat 3 10) wAnalyses).next_action =
      some "CROSS_REVIEW" :=
  ((C1_check_consensus_decision_table (mkRat 8 10) (mkRat 3 10) simW wAnalyses
      (by rw [Rat.mkRat_eq_div]; norm_num) (by decide) (by decide)).2.2.2
    (by decide) (by decide)).2.2 (by rw [Rat.mkRat_eq_div]; norm_num)

/-! ### Claim C2 -/

/-- **C2.** On at least two analyses with at least one non-empty normalized
conclusion, the consensus percentage is the size of the largest cluster over
the number of input analyses; the agreed item list is exactly the one item
built from the largest cluster (the maximal-size cluster, ties resolved in
favour of the cluster whose anchor — its head, the smallest member index —
is smallest), and the disputed items are exactly the items of every other
cluster. -/
theorem C2_largest_cluster_invariant
    (threshold simT : ℚ) (sim : Nat → Nat → ℚ) (analyses : List Analysis)
    (h2 : 2 ≤ analyses.length) (hne : allConclusionsEmpty analyses = false) :
    (check_consensus threshold sim simT analyses).consensus_percentage =
      ((largestCluster sim simT analyses).length : ℚ) / (analyses.length : ℚ) ∧
    largestCluster sim simT analyses ∈ consensusClusters sim simT analyses ∧
    (∀ c ∈ consensusClusters sim simT analyses,
      c.length ≤ (largestCluster sim simT analyses).length) ∧
    (∀ c ∈ consensusClusters sim simT analyses,
      c.length = (largestCluster sim simT analyses).length →
        (largestCluster sim simT analyses).headD 0 ≤ c.headD 0) ∧
    (check_consensus threshold sim simT analyses).agreed_items =
      [mkClusterItem (normConclusions analyses) (modelNames analyses)
        (largestCluster sim simT analyses)] ∧
    (check_consensus threshold sim simT analyses).disputed_items =
      ((consensusClusters sim simT analyses).filter
          (fun c => !(c == largestCluster sim simT analyses))).map
        (mkClusterItem (normConclusions analyses) (modelNames analyses)) := by
  have hclne := consensusClusters_ne_nil sim simT analyses h2
  have hnd : (consensusClusters sim simT analyses).Nodup := by
    rw [consensusClusters, cluster_texts]
    exact clusterGo_nodup _ _ _ _
  have hpw : (consensusClusters sim simT analyses).Pairwise
      (fun a b => a.headD 0 < b.headD 0) := by
    rw [consensusClusters, cluster_texts]
    exact clusterGo_pairwise_head _ _ _ _ (List.pairwise_lt_range _)
  have hmem : largestCluster sim simT analyses ∈ consensusClusters sim simT analyses :=
    maxByLen_mem _ hclne
  rw [check_consensus_main threshold sim simT analyses h2 hne]
  refine ⟨?_, hmem, fun c hc => maxByLen_le _ c hc,
    fun c hc hl => maxByLen_first_anchor _ hpw c hc hl, ?_, rfl⟩
  · show consensusPct sim simT analyses = _
    rw [consensusPct, Rat.mkRat_eq_div]
    push_cast
    ring
  show ((consensusClusters sim simT analyses).filter
      (fun c => c == largestCluster sim simT analyses)).map
    (mkClusterItem (normConclusions analyses) (modelNames analyses)) = _
  rw [filter_beq_of_nodup _ hnd _ hmem]
  rfl

theorem C2_largest_cluster_invariant_witness :
    (check_consensus (mkRat 8 10) simW (mkRat 3 10) wAnalyses).agreed_items =
      [mkClusterItem (normConclusions wAnalyses) (modelNames wAnalyses)
        (largestCluster simW (mkRat 3 10) wAnalyses)] :=
  (C2_largest_cluster_invariant (mkRat 8 10) (mkRat 3 10) simW wAnalyses
    (by decide) (by decide)).2.2.2.2.1

/-! ### Claim C6 -/

/-- **C6 (amended).** `compare` with fewer than two texts returns the
degenerate result (empty matrix, zero max similarity, `is_similar = false`,
no clusters).  For two or more texts, however — all-empty texts included —
the result is never the degenerate one: the matrix has one row per text and
the greedy pass always emits at least one cluster.  (The claim's assertion
that all-empty inputs are "treated as equivalent to n < 2" is false: the
source has no such special case, and the real scikit-learn vectorizer in
fact raises `ValueError` on inputs with an empty vocabulary; `check_consensus`
protects itself by filtering all-empty conclusion lists before calling
`compare`.) -/
theorem C6_compare_degenerate_only_below_two (sim : Nat → Nat → ℚ) (t : ℚ)
    (texts : List String) :
    (texts.length < 2 →
      compare sim t texts =
        { similarity_matrix := [], max_similarity := 0, is_similar := false, clusters := [] }) ∧
    (2 ≤ texts.length →
      (compare sim t texts).clusters ≠ [] ∧
      (compare sim t texts).similarity_matrix.length = texts.length) := by
  constructor
  · exact compare_of_lt sim t texts
  · intro h2
    refine ⟨?_, compare_matrix_length sim t texts h2⟩
    rw [compare_clusters sim t texts h2, cluster_texts]
    apply clusterGo_ne_nil
    exact ⟨0, List.mem_range.mpr (by omega), by simp⟩

theorem C6_compare_degenerate_only_below_two_witness :
    (compare (fun _ _ => (0 : ℚ)) (mkRat 9 10) ["only one"] =
      { similarity_matrix := [], max_similarity := 0, is_similar := false, clusters := [] }) ∧
    (compare (fun _ _ => (0 : ℚ)) (mkRat 9 10) ["", ""]).clusters ≠ [] :=
  ⟨(C6_compare_degenerate_only_below_two (fun _ _ => 0) (mkRat 9 10) ["only one"]).1 (by decide),
   ((C6_compare_degenerate_only_below_two (fun _ _ => 0) (mkRat 9 10) ["", ""]).2 (by decide)).1⟩

/-- **C6 counterexample.** Two empty texts are *not* treated like `n < 2`:
whatever the similarity values are (here the zero matrix, the charitable
reading of cosine similarity on zero TF-IDF vectors), `compare` produces a
2×2 similarity matrix and the two singleton clusters `[[0], [1]]` — not the
degenerate "no clusters" result the claim asserts. -/
theorem C6_counterexample_all_empty_texts :
    (compare (fun _ _ => (0 : ℚ)) (mkRat 9 10) ["", ""]).clusters = [[0], [1]] ∧
    (compare (fun _ _ => (0 : ℚ)) (mkRat 9 10) ["", ""]).similarity_matrix =
      [[0, 0], [0, 0]] := by
  decide

/-! ### Claim C7 -/

/-- **C7 (amended).** With at least two texts, the clusters returned by
`compare` are exactly the greedy anchor pass over the input order, and every
cluster consists of an anchor followed by strictly later indices whose
similarity *to the anchor* reaches the threshold.  (The claim's stronger
assertion — that any *two* members of one cluster are pairwise similar at
the threshold — is false; only anchor-to-member similarity is guaranteed.) -/
theorem C7_greedy_anchor_clustering (sim : Nat → Nat → ℚ) (t : ℚ) (texts : List String)
    (h2 : 2 ≤ texts.length) :
    (compare sim t texts).clusters = cluster_texts sim t texts.length ∧
    ∀ c ∈ (compare sim t texts).clusters,
      ∃ a fs, c = a :: fs ∧ ∀ j ∈ fs, a < j ∧ t ≤ sim a j := by
  refine ⟨compare_clusters sim t texts h2, ?_⟩
  rw [compare_clusters sim t texts h2, cluster_texts]
  exact clusterGo_anchor sim t _ _ (List.pairwise_lt_range _)

theorem C7_greedy_anchor_clustering_witness :
    (compare simW (mkRat 3 10) ["use redis", "use redis", "envoy"]).clusters =
      cluster_texts simW (mkRat 3 10)
        (["use redis", "use redis", "envoy"] : List String).length :=
  (C7_greedy_anchor_clustering simW (mkRat 3 10) ["use redis", "use redis", "envoy"]
    (by decide)).1

/-- Similarity oracle refuting pairwise similarity inside a cluster:
`sim 0 1 = sim 0 2 = 1/2` but `sim 1 2 = 0`. -/
def simCE : Nat → Nat → ℚ := fun i j =>
  if i = j then 1
  else if min i j = 0 ∧ max i j ≤ 2 then mkRat 1 2
  else 0

/-- **C7 counterexample.** At threshold `1/2` the greedy pass puts indices
0, 1 and 2 into one cluster (both 1 and 2 are similar to the anchor 0), yet
the pairwise similarity of the two non-anchor members 1 and 2 is `0`, below
the threshold — refuting the claim that any two indices of one cluster are
pairwise similar at the threshold. -/
theorem C7_counterexample_not_pairwise :
    (compare simCE (mkRat 1 2) ["redis cache", "redis speed", "cache layer"]).clusters =
      [[0, 1, 2]] ∧
    simCE 1 2 < mkRat 1 2 := by
  decide

/-! ### Claim C10 -/

/-- **C10.** `check_cross_review_consensus` on a non-empty review list whose
total number of agreement and disagreement points is zero performs no
division (the ratio is short-circuited to `0.0`) and, for any positive
threshold (the engine's is at least `0.5`), returns NO_CONSENSUS with
`consensus_percentage = 0` and next action DEBATE rather than an error. -/
theorem C10_cross_review_zero_points (threshold : ℚ) (reviews : List Review)
    (hne : reviews ≠ [])
    (hzero : (reviews.map fun r => r.agreement_points.length).sum +
        (reviews.map fun r => r.disagreement_points.length).sum = 0)
    (hth : 0 < threshold) :
    check_cross_review_consensus threshold reviews =
      { status := "NO_CONSENSUS", consensus_percentage := 0,
        next_action := some "DEBATE" } := by
  have hempty : reviews.isEmpty = false := by
    cases reviews with
    | nil => exact absurd rfl hne
    | cons a l => rfl
  have h12 : ¬ (mkRat 1 2 : ℚ) ≤ 0 := by
    rw [mkRat_one_half]
    norm_num
  rw [check_cross_review_consensus]
  simp only [hempty, Bool.false_eq_true, if_false]
  rw [hzero]
  simp [not_le.mpr hth, h12]

theorem C10_cross_review_zero_points_witness :
    check_cross_review_consensus (mkRat 8 10) [{ feedback := "both placeholders" }] =
      { status := "NO_CONSENSUS", consensus_percentage := 0,
        next_action := some "DEBATE" } :=
  C10_cross_review_zero_points (mkRat 8 10) [{ feedback := "both placeholders" }]
    (by decide) (by decide) (by decide)

/-! ### Engine (`engine.py`) -/

/-- Errors surfaced by `UltimateDebate.run` to the caller:
`NoAvailableClientsError`, or an uncaught participant exception propagating
out of a strict `asyncio.gather`.  (The Korean messages of the source are
abbreviated; no theorem inspects message text.) -/
inductive RunError where
  | noAvailableClients (msg : String)
  | participantException (msg : String)
deriving Repr, DecidableEq

/-- `asyncio.gather(*tasks)` *without* `return_exceptions`: if any task
raises, the exception propagates to the awaiting coroutine (the runtime
propagates the first exception to complete; this model propagates the first
in task order — the claims below only need that some exception escapes). -/
def gatherStrict {α : Type} : List (Except String α) → Except String (List α)
  | [] => .ok []
  | .error e :: _ => .error e
  | .ok a :: rest => (gatherStrict rest).map (a :: ·)

/-- `UltimateDebate._validate_analysis`: reject placeholders
(`requires_input` truthy), any missing field among
analysis/conclusion/confidence, a non-string or shorter-than-50-code-points
`analysis`, and a non-numeric or out-of-`[0, 1]` `confidence`. -/
def validate_analysis (result : Analysis) : Bool :=
  if result.requires_input then false
  else if result.analysis.isNone || result.conclusion.isNone || result.confidence.isNone then
    false
  else
    match result.analysis with
    | some (TextVal.str t) =>
      if t.length < 50 then false
      else
        match result.confidence with
        | some (ConfVal.num q) => decide (0 ≤ q ∧ q ≤ 1)
        | _ => false
    | _ => false

/-- The placeholder returned by `_get_claude_self_analysis` when no
self-analysis was injected (`requires_input = True`; the Korean UI strings
are abbreviated — only the flag and the field shape reach the validator). -/
def claudePlaceholder : Analysis :=
  { model := some "claude"
    model_version := some "claude-code-self"
    analysis := some (TextVal.str "[waiting for set_claude_analysis()]")
    conclusion := some "[set the conclusion via set_claude_analysis()]"
    confidence := some (ConfVal.num 0)
    requires_input := true }

/-- Model-version bookkeeping for a valid external result:
`result["model_version"] = result.get("model", model_name)` when the key is
absent, then `result["model"] = model_name` (the registry key). -/
def tagResult (model_name : String) (r : Analysis) : Analysis :=
  let r1 := if r.model_version.isNone
    then { r with model_version := some (r.model.getD model_name) } else r
  { r1 with model := some model_name }

/-- The state `run_parallel_analysis` builds: the `analyses` dict (insertion
order) and the `failed_clients` dict (as an append-only association list). -/
structure Phase1State where
  analyses : List (String × Analysis)
  failed_clients : List (String × String)
deriving Repr, DecidableEq

/-- `UltimateDebate.run_parallel_analysis`.  `clients` is the external
registry in iteration order, each paired with its `analyze` outcome —
`asyncio.gather(..., return_exceptions=True)` returns one result or
exception per task, in task order.  An exception or a failed integrity
validation records the client in `failed_clients` and skips it; a valid
result is version-tagged and added.  The claude self-analysis (injected, or
the placeholder) is validated last.  An empty `analyses` dict raises
`NoAvailableClientsError`.  Registry entries are never removed here.
Persistence (`save_round`) is outside the model. -/
def run_parallel_analysis (clients : List (String × Except String Analysis))
    (include_claude_self : Bool) (claude_self : Option Analysis)
    (failed0 : List (String × String)) : Except RunError Phase1State :=
  let ext := clients.foldl
    (fun st (c : String × Except String Analysis) =>
      match c.2 with
      | .error e => { st with failed_clients := st.failed_clients ++ [(c.1, e)] }
      | .ok r =>
        if validate_analysis r then
          { st with analyses := st.analyses ++ [(c.1, tagResult c.1 r)] }
        else
          { st with failed_clients :=
              st.failed_clients ++ [(c.1, "integrity validation failed")] })
    ({ analyses := [], failed_clients := failed0 } : Phase1State)
  let withClaude :=
    if include_claude_self then
      let ca := claude_self.getD claudePlaceholder
      if validate_analysis ca then
        { ext with analyses := ext.analyses ++ [("claude", ca)] }
      else
        { ext with failed_clients :=
            ext.failed_clients ++ [("claude", "placeholder analysis")] }
    else ext
  if withClaude.analyses.isEmpty then
    .error (.noAvailableClients "no AI clients available for analysis")
  else .ok withClaude

/-- Outcome of one client's `ensure_authenticated()` under
`asyncio.wait_for(..., timeout=30.0)`. -/
inductive PreflightOutcome where
  | ok
  | timeout
  | failed (msg : String)
deriving Repr, DecidableEq

/-- The `failed_clients` entry recorded for a preflight outcome. -/
def preflightMsg : PreflightOutcome → Option String
  | .ok => none
  | .timeout => some "Preflight timeout (30s)"
  | .failed e => some ("Preflight failed: " ++ e)

def PreflightOutcome.passed : PreflightOutcome → Bool
  | .ok => true
  | _ => false

/-- Registry and `failed_clients` after preflight. -/
structure PreflightState where
  surviving : List String
  failed_clients : List (String × String)
deriving Repr, DecidableEq

/-- The strict-mode check and preflight section of `UltimateDebate.run`
(engine.py lines 171-211): strict mode with an empty external registry
raises up front; otherwise each registered client's preflight runs (bounded
by 30 s of wall clock — each client's outcome is an input here), every
client that timed out or raised is recorded in `failed_clients` and deleted
from the registry, and in strict mode an emptied registry raises
`NoAvailableClientsError`. -/
def runPreflight (strict : Bool) (clients : List (String × PreflightOutcome))
    (failed0 : List (String × String)) : Except RunError PreflightState :=
  if strict && clients.isEmpty then
    .error (.noAvailableClients "strict mode: register at least one external AI")
  else if clients.isEmpty then
    .ok { surviving := [], failed_clients := failed0 }
  else
    let failedNew := clients.filterMap
      (fun c => (preflightMsg c.2).map (fun m => (c.1, m)))
    let survivors := (clients.filter (fun c => c.2.passed)).map Prod.fst
    if strict && survivors.isEmpty then
      .error (.noAvailableClients "preflight: every external AI unavailable")
    else
      .ok { surviving := survivors, failed_clients := failed0 ++ failedNew }

/-- A debate `updated_position`: a dict (whose `conclusion` key may be
absent), or a flat string (the back-compat form). -/
inductive UpdatedPosition where
  | dict (conclusion : Option String)
  | flat (s : String)
deriving Repr, DecidableEq

/-- A debate outcome dictionary (`rebuttals` / `concessions`, unused by any
claim, are omitted).  `updated_position := none` models a missing key, for
which `result.get("updated_position", "")` yields the empty string. -/
structure DebateResult where
  updated_position : Option UpdatedPosition := none
  requires_input : Bool := false
deriving Repr, DecidableEq

/-- The position-update step after Phase 4 (engine.py lines 269-276):
a dict overwrites `conclusion` with its `conclusion` value (default `""`),
anything else is assigned to `conclusion` as-is (a missing key assigns the
`""` default). -/
def applyDebateUpdate (a : Analysis) (r : DebateResult) : Analysis :=
  match r.updated_position with
  | some (UpdatedPosition.dict c) => { a with conclusion := some (c.getD "") }
  | some (UpdatedPosition.flat s) => { a with conclusion := some s }
  | none => { a with conclusion := some "" }

/-- Apply every debate result to `current_analyses`
(`self.current_analyses[model]["conclusion"] = ...`).  Inside `run` every
debated model has an analysis entry (Phase 4 filters on membership), so the
dict update is an in-place map over the association list. -/
def applyDebates (analyses : List (String × Analysis))
    (debates : List (String × DebateResult)) : List (String × Analysis) :=
  debates.foldl
    (fun acc md =>
      acc.map (fun ka => if ka.1 = md.1 then (ka.1, applyDebateUpdate ka.2 md.2) else ka))
    analyses

/-- Claude's placeholder review for `reviewed` (injected slot empty). -/
def claudeReviewPlaceholder (reviewed : String) : Review :=
  { feedback := "[claude review of " ++ reviewed ++ " pending]"
    agreement_points := []
    disagreement_points := []
    requires_input := true }

/-- `UltimateDebate._mock_cross_review` (reachable only when there are no
clients and no claude participation). -/
def mock_cross_review : List (String × Review) :=
  (["claude", "gpt", "gemini"].flatMap fun reviewer =>
    (["claude", "gpt", "gemini"].filter (fun reviewed => reviewed != reviewer)).map
      fun reviewed =>
        (reviewer ++ "_reviews_" ++ reviewed,
         { feedback := reviewer ++ " reviews " ++ reviewed
           agreement_points := ["Point 1", "Point 2"]
           disagreement_points := ["Point 3"] }))

/-- `UltimateDebate.run_cross_review`.  `reviewOracle reviewer reviewed` is
the outcome of `reviewer_client.review(task, reviewed_analysis, own)`.  The
external review tasks are gathered WITHOUT `return_exceptions`, so one
raising review aborts the whole phase (contrast `run_parallel_analysis`).
Claude's reviews come from the injected slots, with a placeholder fallback.
Persistence is outside the model. -/
def run_cross_review (ai_clients : List String) (include_claude_self : Bool)
    (current_analyses : List (String × Analysis))
    (reviewOracle : String → String → Except String Review)
    (claudeReviews : String → Option Review) :
    Except String (List (String × Review)) :=
  if ai_clients.isEmpty && !include_claude_self then .ok mock_cross_review
  else
    let pairs := (ai_clients.filter
        (fun r => (current_analyses.lookup r).isSome)).flatMap
      (fun r => ((current_analyses.map Prod.fst).filter (fun d => d != r)).map
        (fun d => (r, d)))
    match gatherStrict (pairs.map fun p => reviewOracle p.1 p.2) with
    | .error e => .error e
    | .ok results =>
      let ext := (pairs.zip results).map
        (fun pr => (pr.1.1 ++ "_reviews_" ++ pr.1.2, pr.2))
      let claudePart :=
        if include_claude_self && (current_analyses.lookup "claude").isSome then
          ((current_analyses.map Prod.fst).filter (fun d => d != "claude")).map
            (fun d => ("claude_reviews_" ++ d,
              (claudeReviews d).getD (claudeReviewPlaceholder d)))
        else []
      .ok (ext ++ claudePart)

/-- Claude's placeholder debate outcome (injected slot empty). -/
def claudeDebatePlaceholder : DebateResult :=
  { updated_position := some (UpdatedPosition.flat "[claude debate result pending]")
    requires_input := true }

/-- `UltimateDebate._mock_debate_round` (reachable only when there are no
clients and no claude participation). -/
def mock_debate_round : List (String × DebateResult) :=
  ["claude", "gpt", "gemini"].map fun m =>
    (m, { updated_position := some (UpdatedPosition.flat ("Updated position from " ++ m)) })

/-- `UltimateDebate.run_debate_round`: each client with a current analysis
debates; the tasks are gathered WITHOUT `return_exceptions`, so one raising
debate aborts the phase; claude's outcome comes from the injected slot,
with a placeholder fallback. -/
def run_debate_round (ai_clients : List String) (include_claude_self : Bool)
    (current_analyses : List (String × Analysis))
    (debateOracle : String → Except String DebateResult)
    (claudeDebate : Option DebateResult) :
    Except String (List (String × DebateResult)) :=
  if ai_clients.isEmpty && !include_claude_self then .ok mock_debate_round
  else
    let names := ai_clients.filter (fun m => (current_analyses.lookup m).isSome)
    match gatherStrict (names.map debateOracle) with
    | .error e => .error e
    | .ok results =>
      let ext := names.zip results
      let claudePart :=
        if include_claude_self && (current_analyses.lookup "claude").isSome then
          [("claude", claudeDebate.getD claudeDebatePlaceholder)]
        else []
      .ok (ext ++ claudePart)

/-- What one iteration of `run`'s round loop consumes: the validated
Phase-1 analyses (the value `run_parallel_analysis` assigned to
`current_analyses` this round), the similarity oracle for this round's
normalized conclusions, and the Phase-3 review / Phase-4 debate maps as
produced by `run_cross_review` / `run_debate_round`. -/
structure RoundOracle where
  phase1 : List (String × Analysis)
  sim : Nat → Nat → ℚ
  reviews : List (String × Review)
  debates : List (String × DebateResult)

/-- Observable effects of one round: the Phase-2 result, the cross-review
re-check (when Phase 3 ran), whether Phase 4 executed, the
`current_analyses` at round end, the final `consensus_result`, and whether
the loop breaks (consensus reached). -/
structure RoundEffects where
  phase2 : ConsensusResult
  reviewConsensus : Option ConsensusResult
  debateRan : Bool
  analysesAfter : List (String × Analysis)
  consensusAfter : ConsensusResult
  breakLoop : Bool
deriving Repr, DecidableEq

/-- The tail of a round after the (possible) Phase-3 break: Phase 4 runs iff
`self.consensus_result.next_action == "DEBATE"` — and `consensus_result`
still holds the Phase-2 result here, since only a FULL_CONSENSUS review
reassigns it (and breaks). -/
def finishRound (c2 : ConsensusResult) (rc : Option ConsensusResult)
    (o : RoundOracle) : RoundEffects :=
  if c2.next_action = some "DEBATE" then
    { phase2 := c2, reviewConsensus := rc, debateRan := true,
      analysesAfter := applyDebates o.phase1 o.debates,
      consensusAfter := c2, breakLoop := false }
  else
    { phase2 := c2, reviewConsensus := rc, debateRan := false,
      analysesAfter := o.phase1, consensusAfter := c2, breakLoop := false }

/-- One iteration of the `while self.round < self.max_rounds` loop of
`UltimateDebate.run` (engine.py lines 213-278), phases 2-4 (Phase 1's
output is the oracle's `phase1`): check consensus; FULL_CONSENSUS breaks;
when `next_action` is CROSS_REVIEW, the placeholder-filtered reviews are
re-checked and only a FULL_CONSENSUS review result replaces
`consensus_result` and breaks; then the debate branch tests the (still
Phase-2) `consensus_result.next_action` against DEBATE.  A raising review
or debate task would abort `run` instead (see `run_cross_review` /
`run_debate_round`); `runRound` models the exception-free flow. -/
def runRound (threshold simThreshold : ℚ) (o : RoundOracle) : RoundEffects :=
  let c2 := check_consensus threshold o.sim simThreshold (o.phase1.map Prod.snd)
  if c2.status = "FULL_CONSENSUS" then
    { phase2 := c2, reviewConsensus := none, debateRan := false,
      analysesAfter := o.phase1, consensusAfter := c2, breakLoop := true }
  else if c2.next_action = some "CROSS_REVIEW" then
    let rc := check_cross_review_consensus threshold
      ((o.reviews.filter (fun kv => !kv.2.requires_input)).map Prod.snd)
    if rc.status = "FULL_CONSENSUS" then
      { phase2 := c2, reviewConsensus := some rc, debateRan := false,
        analysesAfter := o.phase1, consensusAfter := rc, breakLoop := true }
    else finishRound c2 (some rc) o
  else finishRound c2 none o

/-- The `("claude", ·)` entry Phase 1 appends when `include_claude_self` is
set: `_get_claude_self_analysis` returns the engine's *stored*
`_claude_self_analysis` dict itself when one is set (an unset state yields
the `requires_input` placeholder, which fails validation), and the entry
joins `analyses` only when `_validate_analysis` passes. -/
def claudeEntry (st : Option Analysis) : List (String × Analysis) :=
  match st with
  | some ca => if validate_analysis ca then [("claude", ca)] else []
  | none => []

/-- What one round consumes from outside the engine's own state: the fresh
external Phase-1 results (each round calls `client.analyze(task)` anew on
the same fixed task, and each call returns a new response object — given
here validated and version-tagged, in registry order; the external registry
does not reuse the reserved `"claude"` key), the similarity oracle, and the
Phase-3 review / Phase-4 debate maps. -/
structure RoundInputs where
  ext : List (String × Analysis)
  sim : Nat → Nat → ℚ
  reviews : List (String × Review)
  debates : List (String × DebateResult)

/-- The `RoundOracle` a round actually sees: the fresh external analyses
plus the claude entry served from the stored self-analysis dict. -/
def roundOracleOf (includeClaude : Bool) (st : Option Analysis)
    (inp : RoundInputs) : RoundOracle :=
  { phase1 := inp.ext ++ (if includeClaude then claudeEntry st else [])
    sim := inp.sim, reviews := inp.reviews, debates := inp.debates }

/-- The stored `_claude_self_analysis` after a round.  When claude
participated, `analyses["claude"]` *is* the stored dict
(`_get_claude_self_analysis` returns it by reference and
`run_parallel_analysis` stores it without copying), so the Phase-4 in-place
write `current_analyses["claude"]["conclusion"] = ...` mutates the stored
dict: the state after the round is the round-end `"claude"` entry.  A
non-participating self-analysis (unset, or invalid and therefore absent
from `current_analyses`) is unreachable by the update loop and unchanged. -/
def claudeStateAfter (includeClaude : Bool) (st : Option Analysis)
    (after : List (String × Analysis)) : Option Analysis :=
  match st with
  | some ca =>
    if includeClaude && validate_analysis ca then after.lookup "claude" else some ca
  | none => none

/-- The round loop of `run` with the claude self-analysis state threaded
through: round `r` consumes `inputs[r]`; the loop exits on a break or when
the round budget is exhausted.  Each round's Phase 1 reassigns
`current_analyses`: the external entries are rebuilt from fresh `analyze()`
results, so external conclusions evolved by the previous round's Phase 4
are discarded, but the claude entry aliases the stored
`_claude_self_analysis` dict that Phase 4 mutates in place, so a debate
update to claude's position persists into every later round's Phase 1 and
is what later Phase-2 checks see. -/
def runLoop (threshold simThreshold : ℚ) (includeClaude : Bool) :
    Option Analysis → List RoundInputs → List RoundEffects
  | _, [] => []
  | st, inp :: rest =>
    let e := runRound threshold simThreshold (roundOracleOf includeClaude st inp)
    if e.breakLoop then [e]
    else e :: runLoop threshold simThreshold includeClaude
      (claudeStateAfter includeClaude st e.analysesAfter) rest

/-! ### Claim C3 -/

/-- **C3 (amended).** When the Phase-3 cross-review consensus check
completes (`reviewConsensus = some rc`): a FULL_CONSENSUS review result sets
the round's final consensus to `rc` and breaks to the final phase without
Phase 4; any other review status ALSO ends the round without Phase 4 — the
debate guard tests the Phase-2 result's `next_action`, which in a reviewed
round is still CROSS_REVIEW, so the round index increments with neither a
debate nor a revised consensus. -/
theorem C3_review_nonfull_ends_round_without_debate
    (threshold simT : ℚ) (o : RoundOracle) (rc : ConsensusResult)
    (hrc : (runRound threshold simT o).reviewConsensus = some rc) :
    (rc.status = "FULL_CONSENSUS" →
      (runRound threshold simT o).breakLoop = true ∧
      (runRound threshold simT o).debateRan = false ∧
      (runRound threshold simT o).consensusAfter = rc) ∧
    (rc.status ≠ "FULL_CONSENSUS" →
      (runRound threshold simT o).debateRan = false ∧
      (runRound threshold simT o).breakLoop = false ∧
      (runRound threshold simT o).consensusAfter = (runRound threshold simT o).phase2) := by
  simp only [runRound] at hrc ⊢
  by_cases h1 : (check_consensus threshold o.sim simT (o.phase1.map Prod.snd)).status =
      "FULL_CONSENSUS"
  · rw [if_pos h1] at hrc
    exact absurd hrc (by simp)
  · rw [if_neg h1] at hrc ⊢
    by_cases h2 : (check_consensus threshold o.sim simT (o.phase1.map Prod.snd)).next_action =
        some "CROSS_REVIEW"
    · rw [if_pos h2] at hrc ⊢
      have hnd : ¬ (check_consensus threshold o.sim simT
          (o.phase1.map Prod.snd)).next_action = some "DEBATE" := by
        rw [h2]
        decide
      by_cases h3 : (check_cross_review_consensus threshold
          ((o.reviews.filter (fun kv => !kv.2.requires_input)).map Prod.snd)).status =
          "FULL_CONSENSUS"
      · rw [if_pos h3] at hrc ⊢
        simp only [Option.some.injEq] at hrc
        subst hrc
        refine ⟨fun _ => ⟨?_, ?_, ?_⟩, fun hne => absurd h3 hne⟩ <;> rfl
      · rw [if_neg h3] at hrc ⊢
        simp only [finishRound, if_neg hnd] at hrc ⊢
        simp only [Option.some.injEq] at hrc
        subst hrc
        refine ⟨fun hfull => absurd hfull h3, fun _ => ⟨?_, ?_, ?_⟩⟩ <;> first | rfl | trivial
    · rw [if_neg h2] at hrc
      simp only [finishRound] at hrc
      by_cases h4 : (check_consensus threshold o.sim simT
          (o.phase1.map Prod.snd)).next_action = some "DEBATE"
      · rw [if_pos h4] at hrc
        exact absurd hrc (by simp)
      · rw [if_neg h4] at hrc
        exact absurd hrc (by simp)

/-- Two valid analyses with conclusions "kong" and "envoy". -/
def ceKong : Analysis :=
  { conclusion := some "kong", model := some "gpt"
    analysis := some (TextVal.str
      "Kong offers a mature plugin ecosystem and easy declarative configuration.")
    confidence := some (ConfVal.num 1) }

def ceEnvoy : Analysis :=
  { conclusion := some "envoy", model := some "gemini"
    analysis := some (TextVal.str
      "Envoy provides first-class observability and modern service mesh support.")
    confidence := some (ConfVal.num 1) }

/-- A round in which Phase 2 is PARTIAL_CONSENSUS (two dissimilar
conclusions, percentage 1/2) and the single real cross-review splits its
points evenly, so the review re-check is PARTIAL_CONSENSUS as well. -/
def ceRound3 : RoundOracle :=
  { phase1 := [("gpt", ceKong), ("gemini", ceEnvoy)]
    sim := fun _ _ => 0
    reviews := [("gpt_reviews_gemini",
      { agreement_points := ["a"], disagreement_points := ["d"] })]
    debates := [] }

/-- **C3 counterexample.** In `ceRound3` the cross-review check completes
with PARTIAL_CONSENSUS (status ≠ FULL_CONSENSUS, and its own `next_action`
is even DEBATE), yet Phase 4 does not execute and the loop does not break:
the round simply ends.  This refutes the claim that any non-FULL review
result leads to Phase 4 in the same round. -/
theorem C3_counterexample_partial_review_skips_debate :
    (runRound (mkRat 8 10) (mkRat 3 10) ceRound3).reviewConsensus =
      some { status := "PARTIAL_CONSENSUS", consensus_percentage := mkRat 1 2,
             next_action := some "DEBATE" } ∧
    (runRound (mkRat 8 10) (mkRat 3 10) ceRound3).debateRan = false ∧
    (runRound (mkRat 8 10) (mkRat 3 10) ceRound3).breakLoop = false := by
  decide

theorem C3_review_nonfull_ends_round_without_debate_witness :
    (runRound (mkRat 8 10) (mkRat 3 10) ceRound3).debateRan = false ∧
    (runRound (mkRat 8 10) (mkRat 3 10) ceRound3).breakLoop = false ∧
    (runRound (mkRat 8 10) (mkRat 3 10) ceRound3).consensusAfter =
      (runRound (mkRat 8 10) (mkRat 3 10) ceRound3).phase2 :=
  (C3_review_nonfull_ends_round_without_debate (mkRat 8 10) (mkRat 3 10) ceRound3
    { status := "PARTIAL_CONSENSUS", consensus_percentage := mkRat 1 2,
      next_action := some "DEBATE" }
    (by decide)).2 (by decide)

/-! ### Claim C4 -/

theorem lookup_eq_none_of_not_mem {α β : Type} [DecidableEq α] (l : List (α × β)) (a : α)
    (h : a ∉ l.map Prod.fst) : l.lookup a = none := by
  induction l with
  | nil => rfl
  | cons c cs ih =>
    simp only [List.map_cons, List.mem_cons, not_or] at h
    rw [List.lookup]
    have hb : (a == c.1) = false := by simpa using h.1
    simp only [hb]
    exact ih h.2

/-- The cumulative effect of the Phase-4 update loop: with the debate keys
distinct (they come from a Python dict), every `current_analyses` entry with
a debate result is updated by `applyDebateUpdate` exactly once, and every
other entry is untouched. -/
theorem applyDebates_eq_map (analyses : List (String × Analysis))
    (debates : List (String × DebateResult))
    (hnd : (debates.map Prod.fst).Nodup) :
    applyDebates analyses debates =
      analyses.map (fun ka =>
        match debates.lookup ka.1 with
        | some r => (ka.1, applyDebateUpdate ka.2 r)
        | none => ka) := by
  induction debates generalizing analyses with
  | nil => simp [applyDebates]
  | cons d ds ih =>
    simp only [List.map_cons, List.nodup_cons] at hnd
    rw [applyDebates, List.foldl_cons]
    have hstep : applyDebates
        (analyses.map (fun ka => if ka.1 = d.1 then (ka.1, applyDebateUpdate ka.2 d.2) else ka))
        ds =
        (analyses.map (fun ka => if ka.1 = d.1 then (ka.1, applyDebateUpdate ka.2 d.2) else ka)).map
          (fun ka =>
            match ds.lookup ka.1 with
            | some r => (ka.1, applyDebateUpdate ka.2 r)
            | none => ka) := ih _ hnd.2
    rw [applyDebates] at hstep
    rw [hstep, List.map_map]
    apply List.map_congr_left
    intro ka _
    by_cases hk : ka.1 = d.1
    · have hds : ds.lookup ka.1 = none := by
        apply lookup_eq_none_of_not_mem
        rw [hk]
        exact hnd.1
      have hcons : ((d :: ds).lookup ka.1) = some d.2 := by
        rw [List.lookup]
        simp [hk]
      simp only [Function.comp_apply, if_pos hk, hcons]
      simp only [hds]
    · have hds : ((d :: ds).lookup ka.1) = ds.lookup ka.1 := by
        rw [List.lookup]
        have hb : (ka.1 == d.1) = false := by simpa using hk
        simp only [hb]
      simp only [Function.comp_apply, if_neg hk, hds]

/-- Every branch of a round carries the Phase-2 result computed over the
round's own Phase-1 analyses. -/
theorem runRound_phase2 (threshold simT : ℚ) (o : RoundOracle) :
    (runRound threshold simT o).phase2 =
      check_consensus threshold o.sim simT (o.phase1.map Prod.snd) := by
  simp only [runRound]
  split
  · rfl
  · split
    · split
      · rfl
      · rw [finishRound]
        split <;> rfl
    · rw [finishRound]
      split <;> rfl

/-- The Phase-4 write only rewrites `conclusion`, and always to a present
(`some`) value: `requires_input`, `analysis` and `confidence` — everything
else `_validate_analysis` checks — are untouched, so a validated analysis
stays valid after a debate update. -/
theorem validate_applyDebateUpdate (a : Analysis) (r : DebateResult)
    (h : validate_analysis a = true) :
    validate_analysis (applyDebateUpdate a r) = true := by
  have hfields : ∃ x, (applyDebateUpdate a r).conclusion = some x ∧
      (applyDebateUpdate a r).requires_input = a.requires_input ∧
      (applyDebateUpdate a r).analysis = a.analysis ∧
      (applyDebateUpdate a r).confidence = a.confidence := by
    rw [applyDebateUpdate]
    rcases r.updated_position with _ | up
    · exact ⟨"", rfl, rfl, rfl, rfl⟩
    · cases up with
      | dict c => exact ⟨c.getD "", rfl, rfl, rfl, rfl⟩
      | flat s => exact ⟨s, rfl, rfl, rfl, rfl⟩
  obtain ⟨x, hx, hri, han, hcf⟩ := hfields
  rw [validate_analysis] at h
  rw [validate_analysis, hx, hri, han, hcf]
  by_cases h1 : a.requires_input = true
  · rw [if_pos h1] at h
    cases h
  · replace h1 : a.requires_input = false := by simpa using h1
    rw [h1] at h ⊢
    simp only [Bool.false_eq_true, if_false] at h ⊢
    by_cases h2 : (a.analysis.isNone || a.conclusion.isNone || a.confidence.isNone) = true
    · rw [if_pos h2] at h
      cases h
    · rw [if_neg h2] at h
      simp only [Bool.or_eq_true, not_or, Bool.not_eq_true] at h2
      rw [if_neg (by simp [h2.1.1, h2.2])]
      exact h

/-- `lookup` through a key-preserving entry map. -/
theorem lookup_map_pair {α : Type} (l : List (String × α)) (F : String → α → α)
    (k : String) :
    (l.map (fun ka => (ka.1, F ka.1 ka.2))).lookup k = (l.lookup k).map (F k) := by
  induction l with
  | nil => rfl
  | cons ka t ih =>
    rcases ka with ⟨k1, v1⟩
    simp only [List.map_cons, List.lookup]
    cases hk : (k == k1) with
    | true =>
      have : k = k1 := eq_of_beq hk
      subst this
      rfl
    | false => simpa using ih

/-- The Phase-4 write-through seen at the `"claude"` key: the updated
`current_analyses` holds `applyDebateUpdate` of claude's entry (and, by
aliasing, so does the stored `_claude_self_analysis` dict). -/
theorem lookup_applyDebates (analyses : List (String × Analysis))
    (debates : List (String × DebateResult)) (hnd : (debates.map Prod.fst).Nodup)
    (ca : Analysis) (r : DebateResult)
    (hca : analyses.lookup "claude" = some ca)
    (hr : debates.lookup "claude" = some r) :
    (applyDebates analyses debates).lookup "claude" =
      some (applyDebateUpdate ca r) := by
  rw [applyDebates_eq_map analyses debates hnd]
  have hfun : (fun (ka : String × Analysis) =>
      match debates.lookup ka.1 with
      | some r => (ka.1, applyDebateUpdate ka.2 r)
      | none => ka) = fun ka => (ka.1,
        match debates.lookup ka.1 with
        | some r => applyDebateUpdate ka.2 r
        | none => ka.2) := by
    funext ka
    cases debates.lookup ka.1 <;> rfl
  rw [hfun, lookup_map_pair analyses
    (fun k a => match debates.lookup k with
      | some r => applyDebateUpdate a r
      | none => a) "claude", hca]
  simp only [Option.map_some']
  rw [hr]

/-- **C4 (amended).** After Phase 4, the conclusion of every participant
with a debate result is overwritten in `current_analyses` — by
`updated_position["conclusion"]` when `updated_position` is a dict (default
`""`), by the whole string when it is flat (a missing key writes the `""`
default) — and untouched participants keep their analysis (parts 1-3); the
write keeps a validated analysis valid, since only `conclusion` changes
(part 4); in particular a debated claude entry ends the round holding
`applyDebateUpdate` of its position (part 5).  What the next round's
Phase 2 sees is split: Phase 1 reassigns `current_analyses`, rebuilding the
external entries from fresh `analyze()` results — the externals' evolved
conclusions are discarded — while the claude entry aliases the stored
`_claude_self_analysis` dict that Phase 4 mutated in place, so the next
round's Phase 1, and hence its Phase-2 check, serves claude's evolved
conclusion (part 6). -/
theorem C4_debate_overwrites_and_host_update_persists
    (analyses : List (String × Analysis)) (debates : List (String × DebateResult))
    (hnd : (debates.map Prod.fst).Nodup) :
    (applyDebates analyses debates =
      analyses.map (fun ka =>
        match debates.lookup ka.1 with
        | some r => (ka.1, applyDebateUpdate ka.2 r)
        | none => ka)) ∧
    (∀ (a : Analysis) (c : Option String),
      applyDebateUpdate a { updated_position := some (UpdatedPosition.dict c) } =
        { a with conclusion := some (c.getD "") }) ∧
    (∀ (a : Analysis) (s : String),
      applyDebateUpdate a { updated_position := some (UpdatedPosition.flat s) } =
        { a with conclusion := some s }) ∧
    (∀ (a : Analysis) (r : DebateResult), validate_analysis a = true →
      validate_analysis (applyDebateUpdate a r) = true) ∧
    (∀ (ca : Analysis) (r : DebateResult),
      analyses.lookup "claude" = some ca → debates.lookup "claude" = some r →
      (applyDebates analyses debates).lookup "claude" =
        some (applyDebateUpdate ca r)) ∧
    (∀ (threshold simT : ℚ) (ca : Analysis) (i0 i1 : RoundInputs)
        (rest : List RoundInputs),
      validate_analysis ca = true →
      (runRound threshold simT (roundOracleOf true (some ca) i0)).breakLoop = false →
      runLoop threshold simT true (some ca) (i0 :: i1 :: rest) =
        runRound threshold simT (roundOracleOf true (some ca) i0) ::
          runLoop threshold simT true
            ((runRound threshold simT
              (roundOracleOf true (some ca) i0)).analysesAfter.lookup "claude")
            (i1 :: rest) ∧
      (runRound threshold simT (roundOracleOf true
          ((runRound threshold simT
            (roundOracleOf true (some ca) i0)).analysesAfter.lookup "claude")
          i1)).phase2 =
        check_consensus threshold i1.sim simT
          ((i1.ext ++ claudeEntry
            ((runRound threshold simT
              (roundOracleOf true (some ca) i0)).analysesAfter.lookup "claude")).map
            Prod.snd)) := by
  refine ⟨applyDebates_eq_map analyses debates hnd, fun a c => rfl, fun a s => rfl,
    fun a r h => validate_applyDebateUpdate a r h,
    fun ca r hca hr => lookup_applyDebates analyses debates hnd ca r hca hr, ?_⟩
  intro threshold simT ca i0 i1 rest hval hbreak
  constructor
  · simp only [runLoop]
    rw [if_neg (by rw [hbreak]; exact Bool.false_ne_true)]
    rw [show claudeStateAfter true (some ca)
        (runRound threshold simT (roundOracleOf true (some ca) i0)).analysesAfter =
        (runRound threshold simT
          (roundOracleOf true (some ca) i0)).analysesAfter.lookup "claude" from by
      simp [claudeStateAfter, hval]]
  · rw [runRound_phase2]
    rfl

def ce4Rust : Analysis :=
  { conclusion := some "rust", model := some "gpt"
    analysis := some (TextVal.str
      "Rust offers memory safety without garbage collection and great tooling.")
    confidence := some (ConfVal.num 1) }

def ce4Go : Analysis :=
  { conclusion := some "go", model := some "gemini"
    analysis := some (TextVal.str
      "Go compiles fast, deploys as a single binary and is easy to operate.")
    confidence := some (ConfVal.num 1) }

def ce4Python : Analysis :=
  { conclusion := some "python", model := some "claude"
    analysis := some (TextVal.str
      "Python maximises library availability and iteration speed for the team.")
    confidence := some (ConfVal.num 1) }

/-- Round-0 inputs: gpt and gemini analyze fresh (rust / go); a three-way
split with claude's "python" yields NO_CONSENSUS → DEBATE, and the debate
moves every participant to "zig". -/
def ce4In0 : RoundInputs :=
  { ext := [("gpt", ce4Rust), ("gemini", ce4Go)]
    sim := fun _ _ => 0
    reviews := []
    debates := [("gpt", { updated_position := some (UpdatedPosition.dict (some "zig")) }),
                ("gemini", { updated_position := some (UpdatedPosition.flat "zig") }),
                ("claude", { updated_position := some (UpdatedPosition.dict (some "zig")) })] }

/-- Round-1 inputs: the clients re-analyze the same task and return fresh
rust / go responses; nothing external carries the round-0 debate update. -/
def ce4In1 : RoundInputs :=
  { ext := [("gpt", ce4Rust), ("gemini", ce4Go)]
    sim := fun _ _ => 0
    reviews := []
    debates := [] }

/-- Round 0 of the counterexample run, with claude's stored self-analysis
concluding "python". -/
def ce4E0 : RoundEffects :=
  runRound (mkRat 8 10) (mkRat 3 10) (roundOracleOf true (some ce4Python) ce4In0)

/-- **C4 counterexample.** Round 0 debates every participant to "zig" and
the updates land in `current_analyses`; round 1's Phase 1 then serves fresh
external analyses (gpt is back to "rust" — its evolved conclusion is
discarded) while claude's aliased self-analysis keeps "zig" — and round 1's
Phase-2 result differs from the consensus over the evolved round-0
conclusions, refuting "the next round's Phase 2 consensus check is computed
over these evolved conclusions" as stated for every participant. -/
theorem C4_counterexample_externals_fresh_host_persists :
    ((roundOracleOf true (some ce4Python) ce4In0).phase1.lookup "claude").map
        (fun a => a.conclusion) = some (some "python") ∧
    ce4E0.debateRan = true ∧
    (ce4E0.analysesAfter.lookup "gpt").map (fun a => a.conclusion) =
      some (some "zig") ∧
    (ce4E0.analysesAfter.lookup "claude").map (fun a => a.conclusion) =
      some (some "zig") ∧
    ((roundOracleOf true (ce4E0.analysesAfter.lookup "claude") ce4In1).phase1.lookup
        "gpt").map (fun a => a.conclusion) = some (some "rust") ∧
    ((roundOracleOf true (ce4E0.analysesAfter.lookup "claude") ce4In1).phase1.lookup
        "claude").map (fun a => a.conclusion) = some (some "zig") ∧
    runLoop (mkRat 8 10) (mkRat 3 10) true (some ce4Python) [ce4In0, ce4In1] =
      [ce4E0, runRound (mkRat 8 10) (mkRat 3 10)
        (roundOracleOf true (ce4E0.analysesAfter.lookup "claude") ce4In1)] ∧
    (runRound (mkRat 8 10) (mkRat 3 10)
      (roundOracleOf true (ce4E0.analysesAfter.lookup "claude") ce4In1)).phase2 ≠
      check_consensus (mkRat 8 10) ce4In1.sim (mkRat 3 10)
        (ce4E0.analysesAfter.map Prod.snd) := by
  decide

theorem C4_debate_overwrites_witness :
    runLoop (mkRat 8 10) (mkRat 3 10) true (some ce4Python) [ce4In0, ce4In1] =
      ce4E0 :: runLoop (mkRat 8 10) (mkRat 3 10) true
        (ce4E0.analysesAfter.lookup "claude") [ce4In1] ∧
    (runRound (mkRat 8 10) (mkRat 3 10)
      (roundOracleOf true (ce4E0.analysesAfter.lookup "claude") ce4In1)).phase2 =
      check_consensus (mkRat 8 10) ce4In1.sim (mkRat 3 10)
        ((ce4In1.ext ++ claudeEntry (ce4E0.analysesAfter.lookup "claude")).map
          Prod.snd) :=
  (C4_debate_overwrites_and_host_update_persists [] [] (by decide)).2.2.2.2.2
    (mkRat 8 10) (mkRat 3 10) ce4Python ce4In0 ce4In1 [] (by decide) (by decide)

/-! ### Claim C5 -/

/-- The analysis entries the external loop of `run_parallel_analysis` keeps:
exactly the clients whose `analyze` call succeeded and validated, in
registry order, version-tagged. -/
def phase1Ok (clients : List (String × Except String Analysis)) : List (String × Analysis) :=
  clients.filterMap fun c =>
    match c.2 with
    | .ok r => if validate_analysis r then some (c.1, tagResult c.1 r) else none
    | .error _ => none

/-- The `failed_clients` entries the external loop of
`run_parallel_analysis` appends: raising clients with the exception text,
invalid results with the integrity message. -/
def phase1Failed (clients : List (String × Except String Analysis)) : List (String × String) :=
  clients.filterMap fun c =>
    match c.2 with
    | .error e => some (c.1, e)
    | .ok r => if validate_analysis r then none else some (c.1, "integrity validation failed")

theorem phase1_foldl_spec (clients : List (String × Except String Analysis))
    (st0 : Phase1State) :
    clients.foldl
      (fun st (c : String × Except String Analysis) =>
        match c.2 with
        | .error e => { st with failed_clients := st.failed_clients ++ [(c.1, e)] }
        | .ok r =>
          if validate_analysis r then
            { st with analyses := st.analyses ++ [(c.1, tagResult c.1 r)] }
          else
            { st with failed_clients :=
                st.failed_clients ++ [(c.1, "integrity validation failed")] }) st0 =
      { analyses := st0.analyses ++ phase1Ok clients,
        failed_clients := st0.failed_clients ++ phase1Failed clients } := by
  induction clients generalizing st0 with
  | nil => simp [phase1Ok, phase1Failed]
  | cons c cs ih =>
    rw [List.foldl_cons]
    cases hc : c.2 with
    | error e =>
      simp only [hc]
      rw [ih]
      simp [phase1Ok, phase1Failed, List.filterMap_cons, hc]
    | ok r =>
      by_cases hv : validate_analysis r
      · simp only [hc, if_pos hv]
        rw [ih]
        simp [phase1Ok, phase1Failed, List.filterMap_cons, hc, hv]
      · simp only [hc, if_neg hv]
        rw [ih]
        simp [phase1Ok, phase1Failed, List.filterMap_cons, hc, hv]

theorem gatherStrict_error {α : Type} :
    ∀ l : List (Except String α), (∃ x ∈ l, ∃ e, x = Except.error e) →
      ∃ e, gatherStrict l = Except.error e := by
  intro l
  induction l with
  | nil =>
    rintro ⟨x, hx, _⟩
    exact absurd hx (List.not_mem_nil x)
  | cons a rest ih =>
    rintro ⟨x, hx, e, hex⟩
    cases a with
    | error e' => exact ⟨e', rfl⟩
    | ok v =>
      rcases List.mem_cons.mp hx with h | h
      · subst h
        cases hex
      · obtain ⟨e'', he⟩ := ih ⟨x, h, e, hex⟩
        refine ⟨e'', ?_⟩
        rw [gatherStrict, he]
        rfl

/-- **C5 (amended).** Phase 1 degrades gracefully: a successful
`run_parallel_analysis` returns exactly the clients whose `analyze` call
succeeded and passed validation (in registry order, plus claude when its
injected analysis validates), with every raising or invalid client recorded
in `failed_clients` for this operation — and the registry itself is never
modified by this phase.  Phases 3 and 4, however, gather their tasks
WITHOUT `return_exceptions`: if any review (or debate) task of the phase
raises, the whole phase call fails with that exception instead of recording
the participant and continuing. -/
theorem C5_phase1_graceful_but_phase34_abort
    (clients : List (String × Except String Analysis)) (inc : Bool)
    (cs : Option Analysis) (failed0 : List (String × String)) (st : Phase1State)
    (h : run_parallel_analysis clients inc cs failed0 = Except.ok st) :
    (st.analyses = phase1Ok clients ++
      (if inc && validate_analysis (cs.getD claudePlaceholder) then
        [("claude", cs.getD claudePlaceholder)] else []) ∧
     st.failed_clients = failed0 ++ phase1Failed clients ++
      (if inc && !validate_analysis (cs.getD claudePlaceholder) then
        [("claude", "placeholder analysis")] else [])) ∧
    (∀ (acl : List String) (inc2 : Bool) (cur : List (String × Analysis))
       (orc : String → String → Except String Review) (cr : String → Option Review),
      (acl.isEmpty && !inc2) = false →
      (∃ p ∈ (acl.filter (fun r => (cur.lookup r).isSome)).flatMap
          (fun r => ((cur.map Prod.fst).filter (fun d => d != r)).map (fun d => (r, d))),
        ∃ e, orc p.1 p.2 = Except.error e) →
      ∃ e, run_cross_review acl inc2 cur orc cr = Except.error e) ∧
    (∀ (acl : List String) (inc2 : Bool) (cur : List (String × Analysis))
       (dorc : String → Except String DebateResult) (cd : Option DebateResult),
      (acl.isEmpty && !inc2) = false →
      (∃ m ∈ acl.filter (fun m => (cur.lookup m).isSome), ∃ e, dorc m = Except.error e) →
      ∃ e, run_debate_round acl inc2 cur dorc cd = Except.error e) := by
  refine ⟨?_, ?_, ?_⟩
  · rw [run_parallel_analysis, phase1_foldl_spec] at h
    cases inc with
    | false =>
      simp at h ⊢
      by_cases hemp : phase1Ok clients = []
      · rw [if_pos hemp] at h
        cases h
      · rw [if_neg hemp] at h
        simp only [Except.ok.injEq] at h
        subst h
        exact ⟨rfl, rfl⟩
    | true =>
      cases hval : validate_analysis (cs.getD claudePlaceholder) with
      | true =>
        simp [hval] at h ⊢
        subst h
        exact ⟨rfl, rfl⟩
      | false =>
        simp [hval] at h ⊢
        by_cases hemp : phase1Ok clients = []
        · rw [if_pos hemp] at h
          cases h
        · rw [if_neg hemp] at h
          simp only [Except.ok.injEq] at h
          subst h
          exact ⟨rfl, rfl⟩
  · intro acl inc2 cur orc cr hmock hex
    simp only [run_cross_review, hmock, Bool.false_eq_true, if_false]
    obtain ⟨p, hp, e, he⟩ := hex
    obtain ⟨e', he'⟩ := gatherStrict_error
      (((acl.filter (fun r => (cur.lookup r).isSome)).flatMap
        (fun r => ((cur.map Prod.fst).filter (fun d => d != r)).map (fun d => (r, d)))).map
          (fun p => orc p.1 p.2))
      ⟨orc p.1 p.2, List.mem_map_of_mem _ hp, e, he⟩
    rw [he']
    exact ⟨e', rfl⟩
  · intro acl inc2 cur dorc cd hmock hex
    simp only [run_debate_round, hmock, Bool.false_eq_true, if_false]
    obtain ⟨m, hm, e, he⟩ := hex
    obtain ⟨e', he'⟩ := gatherStrict_error
      ((acl.filter (fun m => (cur.lookup m).isSome)).map dorc)
      ⟨dorc m, List.mem_map_of_mem _ hm, e, he⟩
    rw [he']
    exact ⟨e', rfl⟩

/-- **C5 counterexample.** One raising review in Phase 3 makes the whole
`run_cross_review` call fail with the exception — the failing participant
is not recorded in `failed_clients` and the round does not continue, unlike
the claim's "for every fan-out phase" assertion (which Phase 1 alone
satisfies). -/
theorem C5_counterexample_phase3_exception_aborts :
    run_cross_review ["gpt", "gemini"] false [("gpt", ceKong), ("gemini", ceEnvoy)]
      (fun reviewer _ =>
        if reviewer = "gpt" then Except.error "connection reset" else Except.ok {})
      (fun _ => none) = Except.error "connection reset" := by
  rfl

def ceP1Clients : List (String × Except String Analysis) :=
  [("gpt", Except.ok ceKong), ("gemini", Except.error "connection error")]

def ceP1St : Phase1State :=
  { analyses := [("gpt", tagResult "gpt" ceKong)]
    failed_clients := [("gemini", "connection error")] }

theorem C5_phase1_graceful_but_phase34_abort_witness :
    ceP1St.analyses = phase1Ok ceP1Clients ++
      (if false && validate_analysis ((none : Option Analysis).getD claudePlaceholder) then
        [("claude", (none : Option Analysis).getD claudePlaceholder)] else []) ∧
    ceP1St.failed_clients = [] ++ phase1Failed ceP1Clients ++
      (if false && !validate_analysis ((none : Option Analysis).getD claudePlaceholder) then
        [("claude", "placeholder analysis")] else []) :=
  (C5_phase1_graceful_but_phase34_abort ceP1Clients false none [] ceP1St (by rfl)).1

/-! ### Claim C8 -/

theorem key_nodup_entry_eq {α β : Type} [DecidableEq α] :
    ∀ l : List (α × β), (l.map Prod.fst).Nodup →
      ∀ p ∈ l, ∀ q ∈ l, p.1 = q.1 → p = q := by
  intro l
  induction l with
  | nil =>
    intro _ p hp
    exact absurd hp (List.not_mem_nil p)
  | cons a t ih =>
    intro hnd p hp q hq hpq
    simp only [List.map_cons, List.nodup_cons] at hnd
    rcases List.mem_cons.mp hp with hp' | hp' <;> rcases List.mem_cons.mp hq with hq' | hq'
    · rw [hp', hq']
    · subst hp'
      exact absurd (hpq ▸ List.mem_map_of_mem Prod.fst hq') hnd.1
    · subst hq'
      exact absurd (hpq ▸ List.mem_map_of_mem Prod.fst hp') hnd.1
    · exact ih hnd.2 p hp' q hq' hpq

/-- **C8.** When preflight succeeds, the surviving registry consists exactly
of the clients whose preflight passed (registry order), `failed_clients`
gains exactly one entry per failing client carrying its reason (timeout →
"Preflight timeout (30s)"; exception `e` → "Preflight failed: " ++ e), and —
with registry keys unique, as a Python dict guarantees — no failing client
survives into Phase 1.  When strict mode is set and no registered client
passes preflight (in particular when none is registered), `run` fails with
`NoAvailableClientsError`. -/
theorem C8_preflight_prunes_failed_and_strict_errors
    (strict : Bool) (clients : List (String × PreflightOutcome))
    (failed0 : List (String × String)) :
    (∀ st, runPreflight strict clients failed0 = Except.ok st →
      st.surviving = (clients.filter (fun c => c.2.passed)).map Prod.fst ∧
      st.failed_clients = failed0 ++ clients.filterMap
        (fun c => (preflightMsg c.2).map (fun m => (c.1, m))) ∧
      ∀ p ∈ clients, p.2.passed = false →
        ((clients.map Prod.fst).Nodup → p.1 ∉ st.surviving) ∧
        ∃ m, preflightMsg p.2 = some m ∧ (p.1, m) ∈ st.failed_clients) ∧
    (strict = true → (clients.filter (fun c => c.2.passed)) = [] →
      ∃ msg, runPreflight strict clients failed0 =
        Except.error (RunError.noAvailableClients msg)) := by
  constructor
  · intro st h
    rw [runPreflight] at h
    by_cases h1 : (strict && clients.isEmpty) = true
    · rw [if_pos h1] at h
      cases h
    · rw [if_neg h1] at h
      by_cases h2 : clients.isEmpty = true
      · rw [if_pos h2] at h
        simp only [Except.ok.injEq] at h
        subst h
        have hcl : clients = [] := List.isEmpty_iff.mp h2
        subst hcl
        refine ⟨by simp, by simp, ?_⟩
        intro p hp
        exact absurd hp (List.not_mem_nil p)
      · rw [if_neg h2] at h
        by_cases h3 : (strict &&
            ((clients.filter (fun c => c.2.passed)).map Prod.fst).isEmpty) = true
        · rw [if_pos h3] at h
          cases h
        · rw [if_neg h3] at h
          simp only [Except.ok.injEq] at h
          subst h
          refine ⟨rfl, rfl, ?_⟩
          intro p hp hfail
          constructor
          · intro hnd hmem
            simp only [List.mem_map] at hmem
            obtain ⟨q, hqf, hq1⟩ := hmem
            have hq := List.mem_filter.mp hqf
            have : p = q := key_nodup_entry_eq clients hnd p hp q hq.1 hq1.symm
            rw [← this] at hq
            rw [hfail] at hq
            exact absurd hq.2 (by simp)
          · cases hout : p.2 with
            | ok =>
              rw [hout] at hfail
              exact absurd hfail (by simp [PreflightOutcome.passed])
            | timeout =>
              refine ⟨"Preflight timeout (30s)", rfl, ?_⟩
              apply List.mem_append_right
              apply List.mem_filterMap.mpr
              exact ⟨p, hp, by rw [hout]; rfl⟩
            | failed e =>
              refine ⟨"Preflight failed: " ++ e, rfl, ?_⟩
              apply List.mem_append_right
              apply List.mem_filterMap.mpr
              exact ⟨p, hp, by rw [hout]; rfl⟩
  · intro hstrict hnone
    rw [runPreflight]
    by_cases h1 : (strict && clients.isEmpty) = true
    · rw [if_pos h1]
      exact ⟨_, rfl⟩
    · rw [if_neg h1]
      have h2 : clients.isEmpty = false := by
        cases hcl : clients.isEmpty
        · rfl
        · exact absurd (by rw [hstrict, hcl]; rfl) h1
      rw [h2]
      simp only [Bool.false_eq_true, if_false]
      rw [if_pos (by rw [hstrict, hnone]; rfl)]
      exact ⟨_, rfl⟩

def ceClients8 : List (String × PreflightOutcome) :=
  [("gpt", PreflightOutcome.timeout), ("gemini", PreflightOutcome.ok),
   ("grok", PreflightOutcome.failed "401 unauthorized")]

def ceSt8 : PreflightState :=
  { surviving := ["gemini"]
    failed_clients := [("gpt", "Preflight timeout (30s)"),
                       ("grok", "Preflight failed: 401 unauthorized")] }

theorem C8_preflight_prunes_failed_and_strict_errors_witness :
    (ceSt8.surviving = (ceClients8.filter (fun c => c.2.passed)).map Prod.fst ∧
      ceSt8.failed_clients = [] ++ ceClients8.filterMap
        (fun c => (preflightMsg c.2).map (fun m => (c.1, m)))) ∧
    (∃ msg, runPreflight true [("gpt", PreflightOutcome.timeout)] [] =
      Except.error (RunError.noAvailableClients msg)) :=
  ⟨⟨((C8_preflight_prunes_failed_and_strict_errors false ceClients8 []).1 ceSt8 (by rfl)).1,
    ((C8_preflight_prunes_failed_and_strict_errors false ceClients8 []).1 ceSt8 (by rfl)).2.1⟩,
   (C8_preflight_prunes_failed_and_strict_errors true [("gpt", PreflightOutcome.timeout)]
      []).2 rfl (by decide)⟩

/-! ### Chunked context store (`storage/chunker.py`)

Python `str` values are modelled as `List Char` (code-point sequences,
matching Python string semantics); the file system around
`write_chunked` / `load_level` is the identity on the file *content*. -/

/-- Python `str.find(sub)`: index of the first occurrence, `none` for the
`-1` "not found" result. -/
def findSub (p : List Char) : List Char → Option Nat
  | [] => if p.isPrefixOf ([] : List Char) then some 0 else none
  | ch :: s => if p.isPrefixOf (ch :: s) then some 0 else (findSub p s).map (· + 1)

/-- Python `sub in str`. -/
def containsSub (p l : List Char) : Bool :=
  (findSub p l).isSome

/-- Python `str.strip()`: drop whitespace from both ends. -/
def trimChars (l : List Char) : List Char :=
  ((l.dropWhile Char.isWhitespace).reverse.dropWhile Char.isWhitespace).reverse

/-- Python `str.split("\n")` (via the line iteration of `_load_metadata`,
which splits the content on newlines): every `'\n'` separates two lines, so
the result always has one more line than there are newlines. -/
def splitLines : List Char → List (List Char)
  | [] => [[]]
  | ch :: s =>
    if ch = '\n' then [] :: splitLines s
    else
      match splitLines s with
      | [] => [[ch]]
      | l :: ls => (ch :: l) :: ls

/-- `line.split(":", 1)[1]`: everything after the first colon (the callers
only use it on lines that contain a colon). -/
def afterFirstColon (l : List Char) : List Char :=
  (l.dropWhile (fun ch => ch ≠ ':')).drop 1

/-- Worker for `removeAll`; `fuel` starts at the list length and dominates
it throughout, so the `0` clause is unreachable (structural recursion keeps
the definition kernel-evaluable). -/
def removeAllAux (p : List Char) : Nat → List Char → List Char
  | 0, l => l
  | _ + 1, [] => []
  | fuel + 1, ch :: s =>
    if 0 < p.length ∧ p.isPrefixOf (ch :: s) then removeAllAux p fuel (s.drop (p.length - 1))
    else ch :: removeAllAux p fuel s

/-- Python `str.replace(pat, "")` — remove every occurrence of a (nonempty)
pattern, scanning left to right. -/
def removeAll (p l : List Char) : List Char :=
  removeAllAux p l.length l

/-- The six chunk markers of `ChunkManager.MARKERS`. -/
def sStart : List Char := "<!-- CHUNK:SUMMARY:START -->".data

def sEnd : List Char := "<!-- CHUNK:SUMMARY:END -->".data

def cStart : List Char := "<!-- CHUNK:CONCLUSION:START -->".data

def cEnd : List Char := "<!-- CHUNK:CONCLUSION:END -->".data

def fStart : List Char := "<!-- CHUNK:FULL:START -->".data

def fEnd : List Char := "<!-- CHUNK:FULL:END -->".data

/-- The metadata patterns scanned by `_load_metadata`.  (`"- Created:" in
line` and `"- Status:" in line` are subsumed by the `"Created:"` /
`"Status:"` membership tests that precede them in the same `or`.) -/
def createdPat : List Char := "Created:".data

def statusPat : List Char := "Status:".data

def taskPat : List Char := "# Task:".data

/-- The frontmatter metadata (`task_id`, `timestamp`, `status`); `none`
models an absent dict key. -/
structure MetaOut where
  task_id : Option (List Char) := none
  timestamp : Option (List Char) := none
  status : Option (List Char) := none
deriving Repr, DecidableEq

/-- One step of the `for line in lines[:20]` scan of `_load_metadata`. -/
def metaStep (md : MetaOut) (line : List Char) : MetaOut :=
  if containsSub createdPat line then
    { md with timestamp := some (trimChars (afterFirstColon line)) }
  else if containsSub statusPat line then
    { md with status := some (trimChars (afterFirstColon line)) }
  else if taskPat.isPrefixOf line then
    { md with task_id := some (trimChars (removeAll taskPat line)) }
  else md

/-- `ChunkManager._load_metadata`: scan the first 20 lines. -/
def load_metadata (content : List Char) : MetaOut :=
  ((splitLines content).take 20).foldl metaStep {}

/-- `ChunkManager._load_chunk`: find both markers (anywhere in the file —
`str.find` searches from the start), slice between them, strip; either
marker missing yields no entry. -/
def load_chunk (content startM endM : List Char) : Option (List Char) :=
  match findSub startM content, findSub endM content with
  | some s, some e =>
    some (trimChars ((content.drop (s + startM.length)).take (e - (s + startM.length))))
  | _, _ => none

/-- `LoadLevel` of `storage/chunker.py`. -/
inductive LoadLevel where
  | METADATA
  | SUMMARY
  | CONCLUSION
  | FULL
deriving Repr, DecidableEq

/-- The merged dict `load_level` returns; `none` models an absent key.
(The chunk keys `summary` / `conclusion` / `full` and the metadata keys are
pairwise distinct, so the Python dict merges are disjoint.) -/
structure LoadResult where
  task_id : Option (List Char) := none
  timestamp : Option (List Char) := none
  status : Option (List Char) := none
  summary : Option (List Char) := none
  conclusion : Option (List Char) := none
  full : Option (List Char) := none
deriving Repr, DecidableEq

/-- `ChunkManager.load_level` on the file content (the existence check and
file read are the filesystem identity around this). -/
def load_level (content : List Char) (level : LoadLevel) : LoadResult :=
  let md := load_metadata content
  let base : LoadResult :=
    { task_id := md.task_id, timestamp := md.timestamp, status := md.status }
  match level with
  | LoadLevel.METADATA => base
  | LoadLevel.SUMMARY => { base with summary := load_chunk content sStart sEnd }
  | LoadLevel.CONCLUSION =>
    { base with summary := load_chunk content sStart sEnd
                conclusion := load_chunk content cStart cEnd }
  | LoadLevel.FULL =>
    { base with summary := load_chunk content sStart sEnd
                conclusion := load_chunk content cStart cEnd
                full := load_chunk content fStart fEnd }

/-- Single newline, as written by the f-strings of `write_chunked`. -/
def nl : List Char := ['\n']

/-- `ChunkManager.write_chunked`, assembled exactly as the source's
frontmatter + summary_section + conclusion_section + full_section
f-strings: `# Task: {task_id}\n\n## Metadata\n- Created: {timestamp}\n-
Status: {status}\n\n` then `{marker}\n{chunk}\n{marker}\n\n` per chunk
(single trailing newline after the FULL section).  Missing metadata keys
fall back to `Unknown` / `N/A` / `UNKNOWN` via `dict.get`. -/
def write_chunked (metadata : MetaOut) (summary conclusion full : List Char) : List Char :=
  "# Task: ".data ++ metadata.task_id.getD "Unknown".data ++ nl ++
  nl ++ "## Metadata".data ++ nl ++
  "- Created: ".data ++ metadata.timestamp.getD "N/A".data ++ nl ++
  "- Status: ".data ++ metadata.status.getD "UNKNOWN".data ++ nl ++ nl ++
  sStart ++ nl ++ summary ++ nl ++ sEnd ++ nl ++ nl ++
  cStart ++ nl ++ conclusion ++ nl ++ cEnd ++ nl ++ nl ++
  fStart ++ nl ++ full ++ nl ++ fEnd ++ nl

/-! ### Lemmas about `findSub` / `containsSub` -/

theorem findSub_prefix (p l : List Char) (h : p.isPrefixOf l = true) :
    findSub p l = some 0 := by
  cases l with
  | nil => rw [findSub, if_pos h]
  | cons ch s => rw [findSub, if_pos h]

theorem findSub_append_free (p x z : List Char) (c0 : Char) (hp : p.head? = some c0)
    (hx : ∀ ch ∈ x, ch ≠ c0) :
    findSub p (x ++ z) = (findSub p z).map (· + x.length) := by
  induction x with
  | nil =>
    simp only [List.nil_append, List.length_nil]
    cases findSub p z <;> simp
  | cons ch x' ih =>
    have hch : ch ≠ c0 := hx ch (List.mem_cons_self _ _)
    obtain ⟨p', rfl⟩ : ∃ p', p = c0 :: p' := by
      cases p with
      | nil => cases hp
      | cons a q =>
        simp only [List.head?_cons, Option.some.injEq] at hp
        exact ⟨q, by rw [hp]⟩
    have hpre : (c0 :: p').isPrefixOf (ch :: (x' ++ z)) = false := by
      simp only [List.isPrefixOf, Bool.and_eq_false_iff]
      left
      simpa using fun h => hch h.symm
    rw [List.cons_append, findSub, hpre]
    simp only [Bool.false_eq_true, if_false]
    rw [ih (fun a ha => hx a (List.mem_cons_of_mem _ ha))]
    cases findSub (c0 :: p') z <;> simp [Nat.add_assoc, Nat.add_comm]

theorem not_isPrefixOf_append (p m z : List Char) (hpm : p.isPrefixOf m = false)
    (hmp : m.isPrefixOf p = false) : p.isPrefixOf (m ++ z) = false := by
  by_contra hcon
  have hpre : p <+: m ++ z := by
    have := Bool.not_eq_false _ |>.mp hcon
    exact List.isPrefixOf_iff_prefix.mp this
  obtain ⟨t, ht⟩ := hpre
  rcases List.append_eq_append_iff.mp ht with ⟨a', ha', _⟩ | ⟨c', hc', _⟩
  · have : p <+: m := ⟨a', ha'.symm⟩
    rw [List.isPrefixOf_iff_prefix.mpr this] at hpm
    cases hpm
  · have : m <+: p := ⟨c', hc'.symm⟩
    rw [List.isPrefixOf_iff_prefix.mpr this] at hmp
    cases hmp

theorem findSub_append_marker (p m z : List Char) (hhead : p.head? = some '<')
    (hmhead : m.head? = some '<') (hmtail : ∀ ch ∈ m.tail, ch ≠ '<')
    (hpm : p.isPrefixOf m = false) (hmp : m.isPrefixOf p = false) :
    findSub p (m ++ z) = (findSub p z).map (· + m.length) := by
  obtain ⟨mt, rfl⟩ : ∃ mt, m = '<' :: mt := by
    cases m with
    | nil => cases hmhead
    | cons a q =>
      simp only [List.head?_cons, Option.some.injEq] at hmhead
      exact ⟨q, by rw [hmhead]⟩
  have hnot : p.isPrefixOf (('<' :: mt) ++ z) = false := not_isPrefixOf_append p _ z hpm hmp
  rw [List.cons_append, findSub]
  rw [show p.isPrefixOf ('<' :: (mt ++ z)) = false from hnot]
  simp only [Bool.false_eq_true, if_false]
  rw [findSub_append_free p mt z '<' hhead (by simpa using hmtail)]
  cases findSub p z <;> simp [Nat.add_assoc, Nat.add_comm]

theorem containsSub_iff_exists (p l : List Char) :
    containsSub p l = true ↔ ∃ i, p.isPrefixOf (l.drop i) = true := by
  rw [containsSub]
  induction l with
  | nil =>
    constructor
    · intro h
      rw [findSub] at h
      by_cases hp : p.isPrefixOf ([] : List Char) = true
      · exact ⟨0, hp⟩
      · rw [if_neg hp] at h
        cases h
    · rintro ⟨i, hi⟩
      rw [List.drop_nil] at hi
      rw [findSub, if_pos hi]
      rfl
  | cons ch s ih =>
    rw [findSub]
    by_cases hp : p.isPrefixOf (ch :: s) = true
    · rw [if_pos hp]
      exact ⟨fun _ => ⟨0, hp⟩, fun _ => rfl⟩
    · rw [if_neg hp]
      constructor
      · intro h
        have : (findSub p s).isSome = true := by
          cases hf : findSub p s
          · rw [hf] at h
            cases h
          · rfl
        obtain ⟨i, hi⟩ := ih.mp this
        exact ⟨i + 1, by simpa using hi⟩
      · rintro ⟨i, hi⟩
        cases i with
        | zero => exact absurd hi hp
        | succ j =>
          have hsome : (findSub p s).isSome = true := ih.mpr ⟨j, by simpa using hi⟩
          obtain ⟨v, hf⟩ := Option.isSome_iff_exists.mp hsome
          rw [hf]
          rfl

theorem containsSub_mono (p l₁ l₂ : List Char) (hinf : l₁ <:+: l₂)
    (h : containsSub p l₁ = true) : containsSub p l₂ = true := by
  obtain ⟨i, hi⟩ := (containsSub_iff_exists p l₁).mp h
  obtain ⟨a, b, rfl⟩ := hinf
  apply (containsSub_iff_exists p _).mpr
  refine ⟨a.length + i, ?_⟩
  have h1 : (a ++ l₁ ++ b).drop (a.length + i) = (l₁ ++ b).drop i := by
    rw [List.append_assoc, ← List.drop_drop, List.drop_left]
  rw [h1, List.drop_append_eq_append_drop]
  have hp : p <+: l₁.drop i := List.isPrefixOf_iff_prefix.mp hi
  exact List.isPrefixOf_iff_prefix.mpr (hp.trans (List.prefix_append _ _))

theorem containsSub_append_free (p x z : List Char) (c0 : Char) (hp : p.head? = some c0)
    (hx : ∀ ch ∈ x, ch ≠ c0) : containsSub p (x ++ z) = containsSub p z := by
  rw [containsSub, containsSub, findSub_append_free p x z c0 hp hx]
  cases findSub p z <;> rfl

/-! ### Lemmas about `trimChars` and `splitLines` -/

theorem trimChars_cons_ws (ch : Char) (u : List Char) (h : ch.isWhitespace = true) :
    trimChars (ch :: u) = trimChars u := by
  rw [trimChars, trimChars, List.dropWhile_cons, if_pos h]

theorem trimChars_append_ws (u : List Char) (ch : Char) (h : ch.isWhitespace = true) :
    trimChars (u ++ [ch]) = trimChars u := by
  induction u with
  | nil =>
    simp only [List.nil_append]
    rw [trimChars, trimChars, List.dropWhile_cons, if_pos h]
  | cons a u' ih =>
    by_cases ha : a.isWhitespace = true
    · rw [List.cons_append, trimChars_cons_ws a _ ha, trimChars_cons_ws a _ ha]
      exact ih
    · rw [List.cons_append, trimChars, List.dropWhile_cons, if_neg ha,
        trimChars, List.dropWhile_cons, if_neg ha]
      simp only [List.reverse_cons]
      have hrev : (u' ++ [ch]).reverse = ch :: u'.reverse := by simp
      rw [hrev, List.cons_append, List.dropWhile_cons, if_pos h]

theorem splitLines_ne_nil (u : List Char) : splitLines u ≠ [] := by
  cases u with
  | nil => simp [splitLines]
  | cons ch s =>
    rw [splitLines]
    by_cases h : ch = '\n'
    · simp [h]
    · rw [if_neg h]
      cases splitLines s <;> simp

theorem splitLines_nl (v : List Char) : splitLines ('\n' :: v) = [] :: splitLines v := by
  rw [splitLines, if_pos rfl]

theorem splitLines_append (u v : List Char) :
    splitLines (u ++ '\n' :: v) = splitLines u ++ splitLines v := by
  induction u with
  | nil =>
    rw [List.nil_append, splitLines_nl]
    rfl
  | cons ch u' ih =>
    by_cases h : ch = '\n'
    · subst h
      rw [List.cons_append, splitLines_nl, splitLines_nl, ih]
      rfl
    · rw [List.cons_append, splitLines, if_neg h, ih]
      rw [splitLines, if_neg h]
      cases hs : splitLines u' with
      | nil => exact absurd hs (splitLines_ne_nil u')
      | cons l ls => rfl

theorem splitLines_single (x : List Char) (hx : '\n' ∉ x) : splitLines x = [x] := by
  induction x with
  | nil => rfl
  | cons ch x' ih =>
    simp only [List.mem_cons, not_or] at hx
    rw [splitLines, if_neg (fun hc => hx.1 hc.symm), ih hx.2]

theorem splitLines_line (x v : List Char) (hx : '\n' ∉ x) :
    splitLines (x ++ '\n' :: v) = x :: splitLines v := by
  rw [splitLines_append, splitLines_single x hx]
  rfl

theorem splitLines_line2 (x y v : List Char) (hx : '\n' ∉ x) (hy : '\n' ∉ y) :
    splitLines (x ++ (y ++ '\n' :: v)) = (x ++ y) :: splitLines v := by
  rw [← List.append_assoc]
  exact splitLines_line (x ++ y) v (by
    simp only [List.mem_append, not_or]
    exact ⟨hx, hy⟩)

theorem splitLines_head_prefix (u : List Char) :
    ∀ h t, splitLines u = h :: t → h <+: u := by
  induction u with
  | nil =>
    intro h t he
    rw [splitLines] at he
    simp only [List.cons.injEq] at he
    rw [← he.1]
  | cons ch s ih =>
    intro h t he
    by_cases hch : ch = '\n'
    · subst hch
      rw [splitLines_nl] at he
      simp only [List.cons.injEq] at he
      rw [← he.1]
      exact List.nil_prefix
    · rw [splitLines, if_neg hch] at he
      cases hs : splitLines s with
      | nil => exact absurd hs (splitLines_ne_nil s)
      | cons l ls =>
        rw [hs] at he
        simp only [List.cons.injEq] at he
        rw [← he.1]
        exact List.cons_prefix_cons.mpr ⟨rfl, ih l ls hs⟩

theorem splitLines_mem_infix (u : List Char) :
    ∀ line ∈ splitLines u, line <:+: u := by
  induction u with
  | nil =>
    intro line hl
    rw [splitLines] at hl
    simp only [List.mem_singleton] at hl
    rw [hl]
  | cons ch s ih =>
    intro line hl
    by_cases hch : ch = '\n'
    · subst hch
      rw [splitLines_nl] at hl
      rcases List.mem_cons.mp hl with h | h
      · rw [h]
        exact List.nil_infix
      · exact List.infix_cons (ih line h)
    · rw [splitLines, if_neg hch] at hl
      cases hs : splitLines s with
      | nil => exact absurd hs (splitLines_ne_nil s)
      | cons l ls =>
        rw [hs] at hl
        rcases List.mem_cons.mp hl with h | h
        · rw [h]
          exact List.IsPrefix.isInfix
            (List.cons_prefix_cons.mpr ⟨rfl, splitLines_head_prefix s l ls hs⟩)
        · exact List.infix_cons (ih line (by rw [hs]; exact List.mem_cons_of_mem l h))

/-! ### Lemmas about `removeAll` and the metadata scan -/

theorem containsSub_cons_split (p : List Char) (ch : Char) (s : List Char)
    (h : containsSub p (ch :: s) = false) :
    p.isPrefixOf (ch :: s) = false ∧ containsSub p s = false := by
  rw [containsSub, findSub] at h
  by_cases hp : p.isPrefixOf (ch :: s) = true
  · rw [if_pos hp] at h
    cases h
  · rw [if_neg hp] at h
    refine ⟨Bool.eq_false_iff.mpr hp, ?_⟩
    rw [containsSub]
    cases hf : findSub p s
    · rfl
    · rw [hf] at h
      cases h

theorem removeAllAux_noMatch (p : List Char) :
    ∀ (fuel : Nat) (l : List Char), containsSub p l = false → removeAllAux p fuel l = l := by
  intro fuel
  induction fuel with
  | zero => intro l _; rfl
  | succ fu ih =>
    intro l hl
    cases l with
    | nil => rfl
    | cons ch s =>
      obtain ⟨hpre, htail⟩ := containsSub_cons_split p ch s hl
      rw [removeAllAux, if_neg (fun hco => by rw [hpre] at hco; exact absurd hco.2 (by simp))]
      rw [ih s htail]

theorem removeAll_noMatch (p l : List Char) (h : containsSub p l = false) :
    removeAll p l = l :=
  removeAllAux_noMatch p l.length l h

theorem removeAll_prefix_clean (p t : List Char) (hp : 0 < p.length)
    (ht : containsSub p t = false) : removeAll p (p ++ t) = t := by
  cases p with
  | nil => exact absurd hp (by simp)
  | cons pc pt =>
    rw [removeAll, List.cons_append, List.length_cons, removeAllAux]
    rw [if_pos ⟨hp, List.isPrefixOf_iff_prefix.mpr
      (by rw [← List.cons_append]; exact List.prefix_append _ _)⟩]
    have hdrop : (pt ++ t).drop ((pc :: pt).length - 1) = t := by
      simp only [List.length_cons, Nat.add_sub_cancel]
      exact List.drop_left pt t
    rw [hdrop]
    exact removeAllAux_noMatch (pc :: pt) _ t ht

/-- A line that triggers none of the three metadata patterns. -/
def noMetaMatch (line : List Char) : Prop :=
  containsSub createdPat line = false ∧ containsSub statusPat line = false ∧
    taskPat.isPrefixOf line = false

instance (line : List Char) : Decidable (noMetaMatch line) := by
  unfold noMetaMatch
  infer_instance

theorem metaStep_noMatch (md : MetaOut) (line : List Char) (h : noMetaMatch line) :
    metaStep md line = md := by
  rw [metaStep, if_neg (by simp [h.1]), if_neg (by simp [h.2.1]), if_neg (by simp [h.2.2])]

theorem foldl_metaStep_noMatch (L : List (List Char)) (md : MetaOut)
    (h : ∀ l ∈ L, noMetaMatch l) : L.foldl metaStep md = md := by
  induction L generalizing md with
  | nil => rfl
  | cons a t ih =>
    rw [List.foldl_cons, metaStep_noMatch md a (h a (List.mem_cons_self _ _))]
    exact ih md (fun l hl => h l (List.mem_cons_of_mem _ hl))

theorem noMetaMatch_of_chunk (u line : List Char)
    (h1 : containsSub createdPat u = false) (h2 : containsSub statusPat u = false)
    (h3 : containsSub taskPat u = false) (hl : line ∈ splitLines u) :
    noMetaMatch line := by
  have hinf := splitLines_mem_infix u line hl
  refine ⟨?_, ?_, ?_⟩
  · cases hcc : containsSub createdPat line
    · rfl
    · exact absurd (containsSub_mono _ _ _ hinf hcc) (by simp [h1])
  · cases hcc : containsSub statusPat line
    · rfl
    · exact absurd (containsSub_mono _ _ _ hinf hcc) (by simp [h2])
  · cases hcc : taskPat.isPrefixOf line
    · rfl
    · have hco : containsSub taskPat line = true :=
        (containsSub_iff_exists _ _).mpr ⟨0, by simpa using hcc⟩
      exact absurd (containsSub_mono _ _ _ hinf hco) (by simp [h3])

/-! ### The round trip (claim C9) -/

/-- Non-interference conditions for a chunk body: no `'<'` (every marker
occurrence must then start at a marker written by `write_chunked`), no
metadata pattern (so the first-20-lines scan cannot be hijacked), and
strip-invariance (`load` strips the slice). -/
def chunkSafe (x : List Char) : Prop :=
  '<' ∉ x ∧ containsSub createdPat x = false ∧ containsSub statusPat x = false ∧
    containsSub taskPat x = false ∧ trimChars x = x

instance (x : List Char) : Decidable (chunkSafe x) := by
  unfold chunkSafe
  infer_instance

/-- A metadata value must additionally stay on one line. -/
def metaSafe (x : List Char) : Prop :=
  chunkSafe x ∧ '\n' ∉ x

instance (x : List Char) : Decidable (metaSafe x) := by
  unfold metaSafe
  infer_instance

theorem splitLines_cons_ne (ch : Char) (v : List Char) (h : ¬ ch = '\n') :
    splitLines (ch :: v) = (splitLines v).modifyHead (ch :: ·) := by
  rw [splitLines, if_neg h]
  cases hs : splitLines v with
  | nil => exact absurd hs (splitLines_ne_nil v)
  | cons l ls => rfl

theorem afterFirstColon_pre (x v : List Char) (hx : ∀ ch ∈ x, ¬ ch = ':') :
    afterFirstColon (x ++ ':' :: v) = v := by
  induction x with
  | nil =>
    rw [List.nil_append, afterFirstColon, List.dropWhile_cons, if_neg (by decide)]
    rfl
  | cons a x' ih =>
    rw [List.cons_append, afterFirstColon, List.dropWhile_cons,
      if_pos (decide_eq_true (hx a (List.mem_cons_self _ _)))]
    exact ih (fun ch hch => hx ch (List.mem_cons_of_mem _ hch))

theorem foldl_take20 (E R : List (List Char)) (md : MetaOut) (hE : E.length ≤ 20)
    (hR : ∀ l ∈ R, noMetaMatch l) :
    ((E ++ R).take 20).foldl metaStep md = E.foldl metaStep md := by
  rw [List.take_append_eq_append_take, List.take_of_length_le hE, List.foldl_append]
  exact foldl_metaStep_noMatch _ _ (fun l hl => hR l (List.take_subset _ _ hl))

theorem splitLines_write_chunked (tid ts st s c f : List Char)
    (htid : '\n' ∉ tid) (hts : '\n' ∉ ts) (hst : '\n' ∉ st) :
    splitLines (write_chunked
      { task_id := some tid, timestamp := some ts, status := some st } s c f) =
      ("# Task: ".data ++ tid) :: [] :: "## Metadata".data ::
        ("- Created: ".data ++ ts) :: ("- Status: ".data ++ st) :: [] :: sStart ::
        (splitLines s ++ sEnd :: [] :: cStart ::
          (splitLines c ++ cEnd :: [] :: fStart ::
            (splitLines f ++ [fEnd, []]))) := by
  have hW : write_chunked
      { task_id := some tid, timestamp := some ts, status := some st } s c f =
      ("# Task: ".data ++ tid) ++ '\n' :: '\n' ::
        ("## Metadata".data ++ '\n' ::
          (("- Created: ".data ++ ts) ++ '\n' ::
            (("- Status: ".data ++ st) ++ '\n' :: '\n' ::
              (sStart ++ '\n' :: (s ++ '\n' ::
                (sEnd ++ '\n' :: '\n' ::
                  (cStart ++ '\n' :: (c ++ '\n' ::
                    (cEnd ++ '\n' :: '\n' ::
                      (fStart ++ '\n' :: (f ++ '\n' ::
                        (fEnd ++ '\n' :: ([] : List Char))))))))))))) := by
    simp [write_chunked, nl]
  rw [hW]
  rw [splitLines_line ("# Task: ".data ++ tid) _ (by
    intro hmem
    rcases List.mem_append.mp hmem with h | h
    · revert h; decide
    · exact htid h)]
  rw [splitLines_nl]
  rw [splitLines_line "## Metadata".data _ (by decide)]
  rw [splitLines_line ("- Created: ".data ++ ts) _ (by
    intro hmem
    rcases List.mem_append.mp hmem with h | h
    · revert h; decide
    · exact hts h)]
  rw [splitLines_line ("- Status: ".data ++ st) _ (by
    intro hmem
    rcases List.mem_append.mp hmem with h | h
    · revert h; decide
    · exact hst h)]
  rw [splitLines_nl]
  rw [splitLines_line sStart _ (by decide)]
  rw [splitLines_append s]
  rw [splitLines_line sEnd _ (by decide)]
  rw [splitLines_nl]
  rw [splitLines_line cStart _ (by decide)]
  rw [splitLines_append c]
  rw [splitLines_line cEnd _ (by decide)]
  rw [splitLines_nl]
  rw [splitLines_line fStart _ (by decide)]
  rw [splitLines_append f]
  rw [splitLines_line fEnd _ (by decide)]
  rfl

theorem load_metadata_write_chunked (tid ts st s c f : List Char)
    (htid : metaSafe tid) (hts : metaSafe ts) (hst : metaSafe st)
    (hs : chunkSafe s) (hc : chunkSafe c) (hf : chunkSafe f) :
    load_metadata (write_chunked
      { task_id := some tid, timestamp := some ts, status := some st } s c f) =
      { task_id := some tid, timestamp := some ts, status := some st } := by
  rw [load_metadata, splitLines_write_chunked tid ts st s c f htid.2 hts.2 hst.2]
  have hRESTall : ∀ l ∈ splitLines s ++ sEnd :: [] :: cStart ::
      (splitLines c ++ cEnd :: [] :: fStart :: (splitLines f ++ [fEnd, []])),
      noMetaMatch l := by
    intro l hl
    simp only [List.mem_append, List.mem_cons, List.mem_singleton,
      List.not_mem_nil, or_false] at hl
    rcases hl with h | rfl | rfl | rfl | h | rfl | rfl | rfl | h | rfl | rfl
    · exact noMetaMatch_of_chunk s l hs.2.1 hs.2.2.1 hs.2.2.2.1 h
    · decide
    · decide
    · decide
    · exact noMetaMatch_of_chunk c l hc.2.1 hc.2.2.1 hc.2.2.2.1 h
    · decide
    · decide
    · decide
    · exact noMetaMatch_of_chunk f l hf.2.1 hf.2.2.1 hf.2.2.2.1 h
    · decide
    · decide
  show (([("# Task: ".data ++ tid), [], "## Metadata".data,
      ("- Created: ".data ++ ts), ("- Status: ".data ++ st), [], sStart] ++
      (splitLines s ++ sEnd :: [] :: cStart ::
        (splitLines c ++ cEnd :: [] :: fStart ::
          (splitLines f ++ [fEnd, []])))).take 20).foldl metaStep {} =
      { task_id := some tid, timestamp := some ts, status := some st }
  rw [foldl_take20 _ _ _ (by simp) hRESTall]
  simp only [List.foldl_cons, List.foldl_nil]
  have hA : metaStep {} ("# Task: ".data ++ tid) = ({ task_id := some tid } : MetaOut) := by
    have h1 : containsSub createdPat ("# Task: ".data ++ tid) = false := by
      rw [containsSub_append_free createdPat "# Task: ".data tid 'C' (by decide) (by decide)]
      exact htid.1.2.1
    have h2 : containsSub statusPat ("# Task: ".data ++ tid) = false := by
      rw [containsSub_append_free statusPat "# Task: ".data tid 'S' (by decide) (by decide)]
      exact htid.1.2.2.1
    have h3 : taskPat.isPrefixOf ("# Task: ".data ++ tid) = true := by
      rw [show "# Task: ".data ++ tid = taskPat ++ (' ' :: tid) from rfl]
      exact List.isPrefixOf_iff_prefix.mpr (List.prefix_append _ _)
    have h4 : removeAll taskPat ("# Task: ".data ++ tid) = ' ' :: tid := by
      rw [show "# Task: ".data ++ tid = taskPat ++ (' ' :: tid) from rfl]
      apply removeAll_prefix_clean taskPat (' ' :: tid) (by decide)
      rw [show (' ' :: tid) = [' '] ++ tid from rfl,
        containsSub_append_free taskPat [' '] tid '#' (by decide) (by decide)]
      exact htid.1.2.2.2.1
    rw [metaStep, if_neg (by rw [h1]; exact Bool.false_ne_true),
      if_neg (by rw [h2]; exact Bool.false_ne_true), if_pos h3, h4,
      trimChars_cons_ws ' ' tid (by decide), htid.1.2.2.2.2]
  have hCr : metaStep ({ task_id := some tid } : MetaOut) ("- Created: ".data ++ ts) =
      { task_id := some tid, timestamp := some ts } := by
    have h1 : containsSub createdPat ("- Created: ".data ++ ts) = true := by
      apply (containsSub_iff_exists _ _).mpr
      refine ⟨2, ?_⟩
      rw [show ("- Created: ".data ++ ts).drop 2 = createdPat ++ (' ' :: ts) from rfl]
      exact List.isPrefixOf_iff_prefix.mpr (List.prefix_append _ _)
    rw [metaStep, if_pos h1,
      show "- Created: ".data ++ ts = "- Created".data ++ ':' :: (' ' :: ts) from rfl,
      afterFirstColon_pre "- Created".data (' ' :: ts) (by decide),
      trimChars_cons_ws ' ' ts (by decide), hts.1.2.2.2.2]
  have hSt : metaStep ({ task_id := some tid, timestamp := some ts } : MetaOut)
      ("- Status: ".data ++ st) =
      { task_id := some tid, timestamp := some ts, status := some st } := by
    have h1 : containsSub createdPat ("- Status: ".data ++ st) = false := by
      rw [containsSub_append_free createdPat "- Status: ".data st 'C' (by decide) (by decide)]
      exact hst.1.2.1
    have h2 : containsSub statusPat ("- Status: ".data ++ st) = true := by
      apply (containsSub_iff_exists _ _).mpr
      refine ⟨2, ?_⟩
      rw [show ("- Status: ".data ++ st).drop 2 = statusPat ++ (' ' :: st) from rfl]
      exact List.isPrefixOf_iff_prefix.mpr (List.prefix_append _ _)
    rw [metaStep, if_neg (by rw [h1]; exact Bool.false_ne_true), if_pos h2,
      show "- Status: ".data ++ st = "- Status".data ++ ':' :: (' ' :: st) from rfl,
      afterFirstColon_pre "- Status".data (' ' :: st) (by decide),
      trimChars_cons_ws ' ' st (by decide), hst.1.2.2.2.2]
  rw [hA, metaStep_noMatch { task_id := some tid } [] (by decide),
    metaStep_noMatch { task_id := some tid } "## Metadata".data (by decide), hCr, hSt,
    metaStep_noMatch { task_id := some tid, timestamp := some ts, status := some st }
      [] (by decide),
    metaStep_noMatch { task_id := some tid, timestamp := some ts, status := some st }
      sStart (by decide)]

theorem load_chunk_slice (content mS mE x A z : List Char)
    (hC : content = A ++ (mS ++ (('\n' :: (x ++ ['\n'])) ++ (mE ++ z))))
    (hiS : findSub mS content = some A.length)
    (hiE : findSub mE content = some (A.length + mS.length + (x.length + 2)))
    (hx : trimChars x = x) :
    load_chunk content mS mE = some x := by
  rw [load_chunk, hiS, hiE]
  show some (trimChars ((content.drop (A.length + mS.length)).take
      (A.length + mS.length + (x.length + 2) - (A.length + mS.length)))) = some x
  have harith : A.length + mS.length + (x.length + 2) - (A.length + mS.length) =
      x.length + 2 := by omega
  rw [harith, hC,
    show A ++ (mS ++ (('\n' :: (x ++ ['\n'])) ++ (mE ++ z))) =
      (A ++ mS) ++ (('\n' :: (x ++ ['\n'])) ++ (mE ++ z)) from by rw [List.append_assoc],
    show A.length + mS.length = (A ++ mS).length from (List.length_append _ _).symm,
    List.drop_left,
    show x.length + 2 = ('\n' :: (x ++ ['\n'])).length from by simp,
    List.take_left,
    trimChars_cons_ws '\n' _ (by decide), trimChars_append_ws x '\n' (by decide), hx]

theorem chunkline_free (x : List Char) (hx : '<' ∉ x) :
    ∀ ch ∈ ('\n' :: (x ++ ['\n'])), ch ≠ '<' := by
  intro ch hch heq
  subst heq
  rcases List.mem_cons.mp hch with h | h
  · cases h
  · rcases List.mem_append.mp h with h | h
    · exact hx h
    · simp at h

theorem load_chunks_write_chunked (tid ts st s c f : List Char)
    (htid : '<' ∉ tid) (hts : '<' ∉ ts) (hst : '<' ∉ st)
    (hs1 : '<' ∉ s) (hs2 : trimChars s = s)
    (hc1 : '<' ∉ c) (hc2 : trimChars c = c)
    (hf1 : '<' ∉ f) (hf2 : trimChars f = f) :
    load_chunk (write_chunked
      { task_id := some tid, timestamp := some ts, status := some st } s c f)
      sStart sEnd = some s ∧
    load_chunk (write_chunked
      { task_id := some tid, timestamp := some ts, status := some st } s c f)
      cStart cEnd = some c ∧
    load_chunk (write_chunked
      { task_id := some tid, timestamp := some ts, status := some st } s c f)
      fStart fEnd = some f := by
  have hF0 : ∀ ch ∈ "# Task: ".data ++ (tid ++ ('\n' :: '\n' ::
      ("## Metadata".data ++ ('\n' :: ("- Created: ".data ++ (ts ++ ('\n' ::
        ("- Status: ".data ++ (st ++ ['\n', '\n']))))))))), ch ≠ '<' := by
    intro ch hch heq
    subst heq
    simp at hch
    rcases hch with h | h | h
    · exact htid h
    · exact hts h
    · exact hst h
  have hW1 : write_chunked
      { task_id := some tid, timestamp := some ts, status := some st } s c f =
      ("# Task: ".data ++ (tid ++ ('\n' :: '\n' ::
        ("## Metadata".data ++ ('\n' :: ("- Created: ".data ++ (ts ++ ('\n' ::
          ("- Status: ".data ++ (st ++ ['\n', '\n'])))))))))) ++
      (sStart ++ (('\n' :: (s ++ ['\n'])) ++ (sEnd ++ (['\n', '\n'] ++
        (cStart ++ (('\n' :: (c ++ ['\n'])) ++ (cEnd ++ (['\n', '\n'] ++
          (fStart ++ (('\n' :: (f ++ ['\n'])) ++ (fEnd ++ ['\n']))))))))))) := by
    simp [write_chunked, nl]
  refine ⟨load_chunk_slice _ sStart sEnd s _ _ hW1 ?_ ?_ hs2,
    load_chunk_slice _ cStart cEnd c
      (("# Task: ".data ++ (tid ++ ('\n' :: '\n' ::
        ("## Metadata".data ++ ('\n' :: ("- Created: ".data ++ (ts ++ ('\n' ::
          ("- Status: ".data ++ (st ++ ['\n', '\n'])))))))))) ++
       (sStart ++ (('\n' :: (s ++ ['\n'])) ++ (sEnd ++ ['\n', '\n']))))
      (['\n', '\n'] ++ (fStart ++ (('\n' :: (f ++ ['\n'])) ++ (fEnd ++ ['\n']))))
      (by rw [hW1]; simp) ?_ ?_ hc2,
    load_chunk_slice _ fStart fEnd f
      (("# Task: ".data ++ (tid ++ ('\n' :: '\n' ::
        ("## Metadata".data ++ ('\n' :: ("- Created: ".data ++ (ts ++ ('\n' ::
          ("- Status: ".data ++ (st ++ ['\n', '\n'])))))))))) ++
       (sStart ++ (('\n' :: (s ++ ['\n'])) ++ (sEnd ++ (['\n', '\n'] ++
        (cStart ++ (('\n' :: (c ++ ['\n'])) ++ (cEnd ++ ['\n', '\n']))))))))
      ['\n']
      (by rw [hW1]; simp) ?_ ?_ hf2⟩
  · rw [hW1, findSub_append_free sStart _ _ '<' (by decide) hF0,
      findSub_prefix sStart _ (List.isPrefixOf_iff_prefix.mpr (List.prefix_append _ _))]
    simp
  · rw [hW1, findSub_append_free sEnd _ _ '<' (by decide) hF0,
      findSub_append_marker sEnd sStart _ (by decide) (by decide) (by decide)
        (by decide) (by decide),
      findSub_append_free sEnd _ _ '<' (by decide) (chunkline_free s hs1),
      findSub_prefix sEnd _ (List.isPrefixOf_iff_prefix.mpr (List.prefix_append _ _))]
    simp only [Option.map_some', Option.some.injEq, List.length_append, List.length_cons,
      List.length_nil]
    omega
  · rw [hW1, findSub_append_free cStart _ _ '<' (by decide) hF0,
      findSub_append_marker cStart sStart _ (by decide) (by decide) (by decide)
        (by decide) (by decide),
      findSub_append_free cStart _ _ '<' (by decide) (chunkline_free s hs1),
      findSub_append_marker cStart sEnd _ (by decide) (by decide) (by decide)
        (by decide) (by decide),
      findSub_append_free cStart ['\n', '\n'] _ '<' (by decide) (by decide),
      findSub_prefix cStart _ (List.isPrefixOf_iff_prefix.mpr (List.prefix_append _ _))]
    simp only [Option.map_some', Option.some.injEq, List.length_append, List.length_cons,
      List.length_nil]
    omega
  · rw [hW1, findSub_append_free cEnd _ _ '<' (by decide) hF0,
      findSub_append_marker cEnd sStart _ (by decide) (by decide) (by decide)
        (by decide) (by decide),
      findSub_append_free cEnd _ _ '<' (by decide) (chunkline_free s hs1),
      findSub_append_marker cEnd sEnd _ (by decide) (by decide) (by decide)
        (by decide) (by decide),
      findSub_append_free cEnd ['\n', '\n'] _ '<' (by decide) (by decide),
      findSub_append_marker cEnd cStart _ (by decide) (by decide) (by decide)
        (by decide) (by decide),
      findSub_append_free cEnd _ _ '<' (by decide) (chunkline_free c hc1),
      findSub_prefix cEnd _ (List.isPrefixOf_iff_prefix.mpr (List.prefix_append _ _))]
    simp only [Option.map_some', Option.some.injEq, List.length_append, List.length_cons,
      List.length_nil]
    omega
  · rw [hW1, findSub_append_free fStart _ _ '<' (by decide) hF0,
      findSub_append_marker fStart sStart _ (by decide) (by decide) (by decide)
        (by decide) (by decide),
      findSub_append_free fStart _ _ '<' (by decide) (chunkline_free s hs1),
      findSub_append_marker fStart sEnd _ (by decide) (by decide) (by decide)
        (by decide) (by decide),
      findSub_append_free fStart ['\n', '\n'] _ '<' (by decide) (by decide),
      findSub_append_marker fStart cStart _ (by decide) (by decide) (by decide)
        (by decide) (by decide),
      findSub_append_free fStart _ _ '<' (by decide) (chunkline_free c hc1),
      findSub_append_marker fStart cEnd _ (by decide) (by decide) (by decide)
        (by decide) (by decide),
      findSub_append_free fStart ['\n', '\n'] _ '<' (by decide) (by decide),
      findSub_prefix fStart _ (List.isPrefixOf_iff_prefix.mpr (List.prefix_append _ _))]
    simp only [Option.map_some', Option.some.injEq, List.length_append, List.length_cons,
      List.length_nil]
    omega
  · rw [hW1, findSub_append_free fEnd _ _ '<' (by decide) hF0,
      findSub_append_marker fEnd sStart _ (by decide) (by decide) (by decide)
        (by decide) (by decide),
      findSub_append_free fEnd _ _ '<' (by decide) (chunkline_free s hs1),
      findSub_append_marker fEnd sEnd _ (by decide) (by decide) (by decide)
        (by decide) (by decide),
      findSub_append_free fEnd ['\n', '\n'] _ '<' (by decide) (by decide),
      findSub_append_marker fEnd cStart _ (by decide) (by decide) (by decide)
        (by decide) (by decide),
      findSub_append_free fEnd _ _ '<' (by decide) (chunkline_free c hc1),
      findSub_append_marker fEnd cEnd _ (by decide) (by decide) (by decide)
        (by decide) (by decide),
      findSub_append_free fEnd ['\n', '\n'] _ '<' (by decide) (by decide),
      findSub_append_marker fEnd fStart _ (by decide) (by decide) (by decide)
        (by decide) (by decide),
      findSub_append_free fEnd _ _ '<' (by decide) (chunkline_free f hf1),
      findSub_prefix fEnd _ (List.isPrefixOf_iff_prefix.mpr (List.prefix_append _ _))]
    simp only [Option.map_some', Option.some.injEq, List.length_append, List.length_cons,
      List.length_nil]
    omega


/-! ### Claim C9 -/

/-- **C9 (amended).** Round trip of chunked artifacts through
`write_chunked` / `load_level`.  As stated for *arbitrary* strings the
claim fails: `_load_chunk` strips the extracted slice, so padded chunk
bodies do not come back as supplied (and chunk bodies containing markers
or metadata patterns can corrupt parsing).  Under the non-interference
conditions — metadata values on a single line, chunk bodies free of the
`<` marker character and of the metadata patterns, and strip-invariant —
loading at METADATA returns exactly the metadata, and SUMMARY /
CONCLUSION / FULL additionally return exactly the chunks at or below the
requested level, with their original contents. -/
theorem C9_chunk_roundtrip_under_safety (tid ts st s c f : List Char)
    (htid : metaSafe tid) (hts : metaSafe ts) (hst : metaSafe st)
    (hs : chunkSafe s) (hc : chunkSafe c) (hf : chunkSafe f) :
    load_level (write_chunked
      { task_id := some tid, timestamp := some ts, status := some st } s c f)
      LoadLevel.METADATA =
      { task_id := some tid, timestamp := some ts, status := some st } ∧
    load_level (write_chunked
      { task_id := some tid, timestamp := some ts, status := some st } s c f)
      LoadLevel.SUMMARY =
      { task_id := some tid, timestamp := some ts, status := some st,
        summary := some s } ∧
    load_level (write_chunked
      { task_id := some tid, timestamp := some ts, status := some st } s c f)
      LoadLevel.CONCLUSION =
      { task_id := some tid, timestamp := some ts, status := some st,
        summary := some s, conclusion := some c } ∧
    load_level (write_chunked
      { task_id := some tid, timestamp := some ts, status := some st } s c f)
      LoadLevel.FULL =
      { task_id := some tid, timestamp := some ts, status := some st,
        summary := some s, conclusion := some c, full := some f } := by
  have hm := load_metadata_write_chunked tid ts st s c f htid hts hst hs hc hf
  obtain ⟨h1, h2, h3⟩ := load_chunks_write_chunked tid ts st s c f
    htid.1.1 hts.1.1 hst.1.1 hs.1 hs.2.2.2.2 hc.1 hc.2.2.2.2 hf.1 hf.2.2.2.2
  refine ⟨?_, ?_, ?_, ?_⟩ <;> simp [load_level, hm, h1, h2, h3]

set_option maxRecDepth 8192 in
theorem C9_counterexample_strip_breaks_roundtrip :
    (load_level (write_chunked
      { task_id := some "T1".data, timestamp := some "2024-01-01".data,
        status := some "DONE".data } " padded ".data "c".data "f".data)
      LoadLevel.FULL).summary = some "padded".data ∧
    " padded ".data ≠ "padded".data := by
  decide

theorem C9_chunk_roundtrip_witness :
    load_level (write_chunked
      { task_id := some "T1".data, timestamp := some "2024-01-01".data,
        status := some "DONE".data } "sum".data "conc".data "line1\nline2".data)
      LoadLevel.FULL =
      { task_id := some "T1".data, timestamp := some "2024-01-01".data,
        status := some "DONE".data, summary := some "sum".data,
        conclusion := some "conc".data, full := some "line1\nline2".data } :=
  (C9_chunk_roundtrip_under_safety "T1".data "2024-01-01".data "DONE".data
    "sum".data "conc".data "line1\nline2".data (by decide) (by decide) (by decide)
    (by decide) (by decide) (by decide)).2.2.2

end UDebate
